import Mathlib

/-!
# HailOS console: display driver, keyboard decoder, line reader, command dispatcher

A shallow embedding of `kernel.c`, `terminal.c` and `keyboard.c`.

Conventions of the embedding

* Machine integers are natural numbers; `size_t` arithmetic is reduced modulo `2 ^ 32`,
  `uint16_t` modulo `2 ^ 16` and `uint8_t` modulo `2 ^ 8` at the places where the C code
  computes a value of that type.
* A `char` is represented by its byte value `0 .. 255`.
* The framebuffer at `0xB8000` is a map from cell index to 16-bit cell.  Every store to it is also
  appended to the `writes` log of the display state, and every `outb` to the `ports` log, so that
  statements about *which* locations the code touches can be made.
* A `char*` argument is the list of bytes stored from the pointer to the end of the object it
  points into.  A read beyond that list has no defined value (`none`).
* A `for (size_t i = 0; i < n; i++)` loop is `forLoop n body`.
-/

namespace HailOS

/-! ## Loops -/

/-- The loop `for (size_t i = 0; i < n; i++) body(i)`: the state after `n + 1` iterations is the
body at index `n` applied to the state after `n` iterations. -/
def forLoop {σ : Type} : Nat → (Nat → σ → σ) → σ → σ
  | 0, _, s => s
  | n + 1, body, s => body n (forLoop n body s)

/-- The same loop with a body that may read outside a modelled object. -/
def forLoopM {σ : Type} : Nat → (Nat → σ → Option σ) → σ → Option σ
  | 0, _, s => some s
  | n + 1, body, s => (forLoopM n body s).bind (body n)

/-! ## Constants and the display state (identical text in `kernel.c` and `terminal.c`) -/

/-- The number of values of a `size_t`, `2 ^ 32`. -/
def SIZE_MAX1 : Nat := 4294967296

def VGA_COLOR_BLACK : Nat := 0
def VGA_COLOR_LIGHT_GREY : Nat := 7
def VGA_COLOR_LIGHT_GREEN : Nat := 10
def VGA_COLOR_LIGHT_RED : Nat := 12

def VGA_WIDTH : Nat := 80
def VGA_HEIGHT : Nat := 25

/-- The globals `terminal_row`, `terminal_column`, `terminal_color`, the contents of the memory
`terminal_buffer` points to, and the two effect logs. -/
structure Display where
  terminal_row : Nat
  terminal_column : Nat
  terminal_color : Nat
  terminal_buffer : Nat → Nat
  writes : List Nat
  ports : List (Nat × Nat)

/-- `fg | bg << 4`, returned as `uint8_t`. -/
def vga_entry_color (fg bg : Nat) : Nat := (fg ||| (bg <<< 4)) % 256

/-- `(uint16_t) uc | (uint16_t) color << 8`, returned as `uint16_t`; the parameters are an
`unsigned char` and a `uint8_t`. -/
def vga_entry (uc color : Nat) : Nat := ((uc % 256) ||| ((color % 256) <<< 8)) % 65536

/-- The store `terminal_buffer[index] = v`. -/
def store (index v : Nat) (t : Display) : Display :=
  { t with
    terminal_buffer := fun j => if j = index then v else t.terminal_buffer j
    writes := t.writes ++ [index] }

/-- The port write `outb(port, val)`. -/
def outb (port val : Nat) (t : Display) : Display :=
  { t with ports := t.ports ++ [(port, val % 256)] }

def terminal_initialize (t : Display) : Display :=
  let t1 : Display :=
    { t with
      terminal_row := 0
      terminal_column := 0
      terminal_color := vga_entry_color VGA_COLOR_LIGHT_GREY VGA_COLOR_BLACK }
  forLoop VGA_HEIGHT (fun y s =>
    forLoop VGA_WIDTH (fun x s =>
      let index := (y * VGA_WIDTH + x) % SIZE_MAX1
      store index (vga_entry 32 s.terminal_color) s) s) t1

def terminal_setcolor (color : Nat) (t : Display) : Display :=
  { t with terminal_color := color % 256 }

def terminal_putentryat (c color x y : Nat) (t : Display) : Display :=
  let index := (y * VGA_WIDTH + x) % SIZE_MAX1
  store index (vga_entry c color) t

def terminal_scroll (t : Display) : Display :=
  let t1 :=
    forLoop (VGA_HEIGHT - 1) (fun y s =>
      forLoop VGA_WIDTH (fun x s =>
        store ((y * VGA_WIDTH + x) % SIZE_MAX1)
          (s.terminal_buffer (((y + 1) * VGA_WIDTH + x) % SIZE_MAX1)) s) s) t
  forLoop VGA_WIDTH (fun x s =>
    store (((VGA_HEIGHT - 1) * VGA_WIDTH + x) % SIZE_MAX1) (vga_entry 32 s.terminal_color) s) t1

def terminal_move_cursor (row col : Nat) (t : Display) : Display :=
  let position := (row * VGA_WIDTH + col) % 65536
  let t := outb 0x3D4 0x0F t
  let t := outb 0x3D5 (position &&& 0xFF) t
  let t := outb 0x3D4 0x0E t
  outb 0x3D5 ((position >>> 8) &&& 0xFF) t

def terminal_update_cursor (t : Display) : Display :=
  terminal_move_cursor t.terminal_row t.terminal_column t

/-- The function `strlen`: `while (str[len]) len++`. -/
def strlen : List Nat → Option Nat
  | [] => none
  | c :: cs => if c ≠ 0 then (strlen cs).map (· + 1) else some 0

/-- The character codes of a string. -/
def ascii (s : String) : List Nat := s.toList.map Char.toNat

/-- The bytes of a C string literal: the characters followed by the terminator. -/
def cstr (s : String) : List Nat := ascii s ++ [0]

/-! ## Vocabulary for the statements -/

/-- The cursor is inside the grid. -/
def InBounds (t : Display) : Prop :=
  t.terminal_row < VGA_HEIGHT ∧ t.terminal_column < VGA_WIDTH

instance (t : Display) : Decidable (InBounds t) := by
  unfold InBounds; infer_instance

/-- The cell at row `y`, column `x`. -/
def Display.cell (t : Display) (y x : Nat) : Nat := t.terminal_buffer (y * VGA_WIDTH + x)

/-- Cursor, color and port log of `s'` are those of `s`. -/
def SameCursor (s s' : Display) : Prop :=
  s'.terminal_row = s.terminal_row ∧ s'.terminal_column = s.terminal_column ∧
  s'.terminal_color = s.terminal_color ∧ s'.ports = s.ports

/-- Going from `s` to `s'` only appended stores at indices below `N` to the log. -/
def StoresBelow (N : Nat) (s s' : Display) : Prop :=
  ∃ l : List Nat, s'.writes = s.writes ++ l ∧ ∀ w ∈ l, w < N

/-- A display state with the cursor in the bottom right corner, used to instantiate the
statements. -/
def sampleDisplay : Display :=
  { terminal_row := 24, terminal_column := 79, terminal_color := 7,
    terminal_buffer := fun j => 0x0700 + j % 95 + 32, writes := [], ports := [] }

/-- A display state with the cursor inside row 2, used to instantiate the statements. -/
def sampleMid : Display :=
  { terminal_row := 2, terminal_column := 5, terminal_color := 7,
    terminal_buffer := fun j => 0x0700 + j % 95 + 32, writes := [], ports := [] }

/-- A display state with the cursor in the last column of row 2, used to instantiate the
statements. -/
def sampleEdge : Display :=
  { terminal_row := 2, terminal_column := 79, terminal_color := 7,
    terminal_buffer := fun j => 0x0700 + j % 95 + 32, writes := [], ports := [] }

/-! ## `terminal.c` -/

namespace TerminalC

def terminal_putchar (c : Nat) (t : Display) : Display :=
  let t :=
    if c = 10 then
      let t := { t with terminal_column := 0 }
      let t := { t with terminal_row := (t.terminal_row + 1) % SIZE_MAX1 }
      if t.terminal_row = VGA_HEIGHT then
        let t := { t with terminal_row := VGA_HEIGHT - 1 }
        terminal_scroll t
      else t
    else if c = 8 then
      if t.terminal_column > 0 then
        let t := { t with terminal_column := t.terminal_column - 1 }
        terminal_putentryat 32 t.terminal_color t.terminal_column t.terminal_row t
      else if t.terminal_row > 0 then
        let t := { t with terminal_column := VGA_WIDTH - 1 }
        { t with terminal_row := t.terminal_row - 1 }
      else t
    else
      let t := terminal_putentryat c t.terminal_color t.terminal_column t.terminal_row t
      let t := { t with terminal_column := (t.terminal_column + 1) % SIZE_MAX1 }
      if t.terminal_column = VGA_WIDTH then
        let t := { t with terminal_column := 0 }
        let t := { t with terminal_row := (t.terminal_row + 1) % SIZE_MAX1 }
        if t.terminal_row = VGA_HEIGHT then
          let t := { t with terminal_row := VGA_HEIGHT - 1 }
          terminal_scroll t
        else t
      else t
  terminal_update_cursor t

def terminal_write (data : List Nat) (size : Nat) (t : Display) : Option Display :=
  forLoopM size (fun i s => (data[i]?).map (fun c => terminal_putchar c s)) t

def terminal_writestring (data : List Nat) (t : Display) : Option Display :=
  (strlen data).bind (fun n => terminal_write data n t)

def terminal_writestring_color (data : List Nat) (color : Nat) (t : Display) : Option Display :=
  let old_color := t.terminal_color
  let t := terminal_setcolor color t
  (terminal_writestring data t).map (terminal_setcolor old_color)

/-- The three calls `terminal_putchar(8); terminal_putchar(32); terminal_putchar(8)` that the
backspace branch of `readline` makes, here with the `terminal_putchar` of `terminal.c`. -/
def erase_echo (t : Display) : Display :=
  terminal_putchar 8 (terminal_putchar 32 (terminal_putchar 8 t))

end TerminalC

/-! ## `kernel.c` -/

namespace KernelC

def terminal_putchar (c : Nat) (t : Display) : Display :=
  let t :=
    if c = 10 then
      let t := { t with terminal_column := 0 }
      let t := { t with terminal_row := (t.terminal_row + 1) % SIZE_MAX1 }
      if t.terminal_row = VGA_HEIGHT then
        let t := { t with terminal_row := VGA_HEIGHT - 1 }
        terminal_scroll t
      else t
    else
      let t := terminal_putentryat c t.terminal_color t.terminal_column t.terminal_row t
      let t := { t with terminal_column := (t.terminal_column + 1) % SIZE_MAX1 }
      if t.terminal_column = VGA_WIDTH then
        let t := { t with terminal_column := 0 }
        let t := { t with terminal_row := (t.terminal_row + 1) % SIZE_MAX1 }
        if t.terminal_row = VGA_HEIGHT then
          let t := { t with terminal_row := VGA_HEIGHT - 1 }
          terminal_scroll t
        else t
      else t
  terminal_update_cursor t

def terminal_write (data : List Nat) (size : Nat) (t : Display) : Option Display :=
  forLoopM size (fun i s => (data[i]?).map (fun c => terminal_putchar c s)) t

def terminal_writestring (data : List Nat) (t : Display) : Option Display :=
  (strlen data).bind (fun n => terminal_write data n t)

def terminal_writestring_color (data : List Nat) (color : Nat) (t : Display) : Option Display :=
  let old_color := t.terminal_color
  let t := terminal_setcolor color t
  (terminal_writestring data t).map (terminal_setcolor old_color)

/-- The value of a `char` (signed on the i386 target the file insists on) after promotion to
`int`. -/
def char_to_int (b : Nat) : Int := if b % 256 < 128 then (b % 256 : Int) else (b % 256 : Int) - 256

/-- The local table of `scancode_to_ascii`; `sizeof` of it is 58. -/
def scancode_table : List Nat :=
  [0, 0, 49, 50, 51, 52, 53, 54, 55, 56, 57, 48, 45, 61, 8,
   9, 113, 119, 101, 114, 116, 121, 117, 105, 111, 112, 91, 93, 10,
   0, 97, 115, 100, 102, 103, 104, 106, 107, 108, 59, 39, 96, 0,
   92, 122, 120, 99, 118, 98, 110, 109, 44, 46, 47, 0, 42, 0, 32]

def scancode_to_ascii (scancode : Nat) : Nat :=
  if scancode < scancode_table.length then scancode_table.getD scancode 0 else 0

/-- The locals of `readline` that live across loop iterations, the display it echoes to, and the
log of the indices at which `buffer` was stored to. -/
structure LineReader where
  buffer : List Nat
  i : Nat
  term : Display
  bufWrites : List Nat

/-- The store `buffer[index] = v`. -/
def LineReader.put (index v : Nat) (st : LineReader) : LineReader :=
  { st with buffer := st.buffer.set index v, bufWrites := st.bufWrites ++ [index] }

/-- How a run of `readline` on the scancodes the keyboard controller delivers ends: it returns,
leaving the scancodes it did not read, or it has read them all and waits in `scan` for the
next one. -/
inductive Outcome where
  | returned (st : LineReader) (rest : List Nat)
  | blocked (st : LineReader)

/-- The state in which a run ended. -/
def Outcome.state : Outcome → LineReader
  | .returned st _ => st
  | .blocked st => st

/-- The scancodes left unread by a run that returned. -/
def Outcome.unread : Outcome → Option (List Nat)
  | .returned _ rest => some rest
  | .blocked _ => none

/-- The `while (i < buffer_size - 1)` loop of `readline`; each `scan()` takes the next scancode
of the stream. -/
def readline_loop (buffer_size : Nat) : List Nat → LineReader → Outcome
  | [], st =>
    if st.i < (buffer_size + SIZE_MAX1 - 1) % SIZE_MAX1 then .blocked st else .returned st []
  | sc :: rest, st =>
    if st.i < (buffer_size + SIZE_MAX1 - 1) % SIZE_MAX1 then
      let scancode := sc % 256
      if scancode &&& 0x80 ≠ 0 then
        readline_loop buffer_size rest st
      else
        let c := scancode_to_ascii scancode
        if c = 10 then
          let st := st.put st.i 0
          let st := { st with term := terminal_putchar 10 st.term }
          .returned st rest
        else if c = 8 ∧ st.i > 0 then
          let st := { st with i := st.i - 1 }
          let st := { st with term := terminal_putchar 8 st.term }
          let st := { st with term := terminal_putchar 32 st.term }
          let st := { st with term := terminal_putchar 8 st.term }
          readline_loop buffer_size rest st
        else if c ≥ 32 ∧ c ≤ 126 then
          let st := st.put st.i c
          let st := { st with i := st.i + 1 }
          let st := { st with term := terminal_putchar c st.term }
          readline_loop buffer_size rest st
        else
          readline_loop buffer_size rest st
    else .returned st (sc :: rest)

def readline (buffer : List Nat) (buffer_size : Nat) (stream : List Nat) (t : Display) :
    Outcome :=
  match readline_loop buffer_size stream { buffer := buffer, i := 0, term := t, bufWrites := [] } with
  | .returned st rest => .returned (st.put ((buffer_size + SIZE_MAX1 - 1) % SIZE_MAX1) 0) rest
  | .blocked st => .blocked st

def cmd_help (t : Display) : Option Display := do
  let t ← terminal_writestring (cstr "Available commands:\n") t
  let t ← terminal_writestring (cstr "  help  - Display this help message\n") t
  let t ← terminal_writestring (cstr "  clear - Clear the screen\n") t
  terminal_writestring (cstr "  color - Change text color (usage: color <number 0-15>)\n") t

def cmd_clear (t : Display) : Display :=
  terminal_initialize t

def cmd_color (arg : List Nat) (t : Display) : Option Display := do
  let a0 ← arg[0]?
  let color : Int := char_to_int a0 - 48
  if color ≥ 0 ∧ color ≤ 15 then
    let t := terminal_setcolor (vga_entry_color color.toNat VGA_COLOR_BLACK) t
    terminal_writestring (cstr "Color changed.\n") t
  else
    terminal_writestring (cstr "Invalid color. Please use a number between 0 and 15.\n") t

/-- The function `strcmp`; the result is the difference of the two bytes at which the loop
stops. -/
def strcmp : List Nat → List Nat → Option Int
  | [], _ => none
  | a :: s1, s2 =>
    if a ≠ 0 then
      match s2 with
      | [] => none
      | b :: s2 => if a = b then strcmp s1 s2 else some ((a % 256 : Int) - (b % 256 : Int))
    else
      match s2 with
      | [] => none
      | b :: _ => some ((a % 256 : Int) - (b % 256 : Int))

/-- The offset reached by `while (*arg && *arg != 32) arg++`. -/
def skip_word : List Nat → Option Nat
  | [] => none
  | c :: cs => if c ≠ 0 ∧ c ≠ 32 then (skip_word cs).map (· + 1) else some 0

/-- The function `execute_command`; it returns the command buffer, which it modifies in place,
together with the display. -/
def execute_command (cmd : List Nat) (t : Display) : Option (List Nat × Display) := do
  let arg ← skip_word cmd
  let c ← cmd[arg]?
  let cmd1 := if c = 32 then cmd.set arg 0 else cmd
  let arg := if c = 32 then arg + 1 else arg
  let cmd := cmd1
  if (← strcmp cmd (cstr "help")) = 0 then
    let t ← cmd_help t
    pure (cmd, t)
  else if (← strcmp cmd (cstr "clear")) = 0 then
    pure (cmd, cmd_clear t)
  else if (← strcmp cmd (cstr "color")) = 0 then
    let t ← cmd_color (cmd.drop arg) t
    pure (cmd, t)
  else
    let t ← terminal_writestring
      (cstr "Unknown command. Type \x27help\x27 for a list of commands.\n") t
    pure (cmd, t)

end KernelC

/-! ## `keyboard.c` -/

namespace KeyboardC

/-- The table `scancode_to_char`; `sizeof` of it is 90. -/
def scancode_to_char : List Nat :=
  [0, 27, 49, 50, 51, 52, 53, 54, 55, 56,
   57, 48, 45, 61, 8, 9,
   113, 119, 101, 114,
   116, 121, 117, 105, 111, 112, 91, 93, 10,
   0,
   97, 115, 100, 102, 103, 104, 106, 107, 108, 59,
   39, 96, 0,
   92, 122, 120, 99, 118, 98, 110,
   109, 44, 46, 47, 0,
   42,
   0,
   32,
   0,
   0,
   0, 0, 0, 0, 0, 0, 0, 0,
   0,
   0,
   0,
   0,
   0,
   0,
   45,
   0,
   0,
   0,
   43,
   0,
   0,
   0,
   0,
   0,
   0, 0, 0, 0,
   0,
   0]

def get_char_from_scancode (scancode : Nat) : Nat :=
  if scancode ≥ scancode_to_char.length then 0 else scancode_to_char.getD scancode 0

end KeyboardC

/-- A state of the line reader with one character typed and the cursor inside row 2, used to
instantiate the statements. -/
def sampleReader : KernelC.LineReader :=
  { buffer := [97, 7, 7, 7], i := 1, term := sampleMid, bufWrites := [0] }

/-! ## The line editor as the specification words it -/

/-- From the specification of the line reader: a press decoding to a byte in `0x20 .. 0x7E`
appends that byte, a press decoding to backspace removes the last byte of a non-empty text, and
every other scancode leaves the text unchanged. -/
def spec_edit (text : List Nat) (sc : Nat) : List Nat :=
  if sc &&& 0x80 = 0 then
    if 0x20 ≤ KernelC.scancode_to_ascii sc ∧ KernelC.scancode_to_ascii sc ≤ 0x7E then
      text ++ [KernelC.scancode_to_ascii sc]
    else if KernelC.scancode_to_ascii sc = 8 then text.dropLast
    else text
  else text

/-- The text obtained by folding the scancodes from the empty text. -/
def spec_line (scancodes : List Nat) : List Nat := scancodes.foldl spec_edit []

/-! ## The parts of a command line as the specification words them -/

/-- The command name: the bytes before the first space, the whole line if it has no space. -/
def command_name (line : List Nat) : List Nat := line.takeWhile (fun c => c ≠ 32)

/-- The argument: the bytes after the first space, empty if there is none. -/
def command_arg (line : List Nat) : List Nat := (line.dropWhile (fun c => c ≠ 32)).drop 1


/-! ## Properties of the loops and of the stores -/

theorem forLoop_rel {σ : Type} (R : σ → σ → Prop) (hrefl : ∀ s, R s s)
    (htrans : ∀ a b c, R a b → R b c → R a c) (n : Nat) (body : Nat → σ → σ)
    (h : ∀ i, i < n → ∀ s, R s (body i s)) (s : σ) : R s (forLoop n body s) := by
  induction n with
  | zero => exact hrefl s
  | succ n ih =>
    exact htrans _ _ _ (ih (fun i hi => h i (Nat.lt_succ_of_lt hi)))
      (h n (Nat.lt_succ_self n) _)

theorem sameCursor_refl (s : Display) : SameCursor s s := ⟨rfl, rfl, rfl, rfl⟩

theorem sameCursor_trans (a b c : Display) (h1 : SameCursor a b) (h2 : SameCursor b c) :
    SameCursor a c := by
  obtain ⟨p1, p2, p3, p4⟩ := h1
  obtain ⟨q1, q2, q3, q4⟩ := h2
  exact ⟨q1.trans p1, q2.trans p2, q3.trans p3, q4.trans p4⟩

theorem storesBelow_refl (N : Nat) (s : Display) : StoresBelow N s s :=
  ⟨[], by simp, by simp⟩

theorem storesBelow_trans (N : Nat) (a b c : Display) (h1 : StoresBelow N a b)
    (h2 : StoresBelow N b c) : StoresBelow N a c := by
  obtain ⟨l1, e1, b1⟩ := h1
  obtain ⟨l2, e2, b2⟩ := h2
  refine ⟨l1 ++ l2, by rw [e2, e1, List.append_assoc], ?_⟩
  intro w hw
  rcases List.mem_append.mp hw with h | h
  · exact b1 w h
  · exact b2 w h

theorem store_sameCursor (i v : Nat) (s : Display) : SameCursor s (store i v s) :=
  ⟨rfl, rfl, rfl, rfl⟩

theorem store_storesBelow (N i v : Nat) (s : Display) (h : i < N) :
    StoresBelow N s (store i v s) :=
  ⟨[i], rfl, by simpa using h⟩

theorem storeLoop_sameCursor (n : Nat) (idx : Nat → Nat) (val : Nat → Display → Nat)
    (s : Display) : SameCursor s (forLoop n (fun x s => store (idx x) (val x s) s) s) :=
  forLoop_rel SameCursor sameCursor_refl sameCursor_trans n _
    (fun _ _ s => store_sameCursor _ _ s) s

/-- A loop whose body is one store at an index below `N`. -/
theorem storeLoop_storesBelow (N n : Nat) (idx : Nat → Nat) (val : Nat → Display → Nat)
    (h : ∀ x, x < n → idx x < N) (s : Display) :
    StoresBelow N s (forLoop n (fun x s => store (idx x) (val x s) s) s) :=
  forLoop_rel (StoresBelow N) (storesBelow_refl N) (storesBelow_trans N) n _
    (fun i hi s => store_storesBelow N _ _ s (h i hi)) s

theorem mod_size (a : Nat) (h : a < 4294967296) : a % SIZE_MAX1 = a :=
  Nat.mod_eq_of_lt h


theorem store_buffer (i v : Nat) (s : Display) (j : Nat) :
    (store i v s).terminal_buffer j = if j = i then v else s.terminal_buffer j := rfl

/-- Contents after the first `n` steps of the copy of row `y + 1` onto row `y`. -/
theorem copyRow_buffer (y : Nat) (hy : y < 24) (n : Nat) (hn : n ≤ 80) (s : Display) (j : Nat) :
    (forLoop n (fun x s => store ((y * VGA_WIDTH + x) % SIZE_MAX1)
        (s.terminal_buffer (((y + 1) * VGA_WIDTH + x) % SIZE_MAX1)) s) s).terminal_buffer j =
      if y * 80 ≤ j ∧ j < y * 80 + n then s.terminal_buffer (j + 80) else s.terminal_buffer j := by
  induction n generalizing j with
  | zero =>
    have : ¬ (y * 80 ≤ j ∧ j < y * 80 + 0) := by omega
    rw [if_neg this]; rfl
  | succ n ih =>
    have hn' : n ≤ 80 := by omega
    simp only [forLoop, store_buffer, VGA_WIDTH, SIZE_MAX1]
    have e1 : (y * 80 + n) % 4294967296 = y * 80 + n := by omega
    have e2 : ((y + 1) * 80 + n) % 4294967296 = y * 80 + n + 80 := by omega
    rw [e1, e2]
    simp only [VGA_WIDTH, SIZE_MAX1] at ih
    by_cases hj : j = y * 80 + n
    · subst hj
      rw [if_pos rfl, ih hn' (y * 80 + n + 80)]
      have a : ¬ (y * 80 ≤ y * 80 + n + 80 ∧ y * 80 + n + 80 < y * 80 + n) := by omega
      have b : y * 80 ≤ y * 80 + n ∧ y * 80 + n < y * 80 + (n + 1) := by omega
      rw [if_neg a, if_pos b]
    · rw [if_neg hj, ih hn' j]
      by_cases c : y * 80 ≤ j ∧ j < y * 80 + n
      · have c' : y * 80 ≤ j ∧ j < y * 80 + (n + 1) := by omega
        rw [if_pos c, if_pos c']
      · have c' : ¬ (y * 80 ≤ j ∧ j < y * 80 + (n + 1)) := by omega
        rw [if_neg c, if_neg c']

/-- Contents after the first `k` rows have been overwritten by their successors. -/
theorem copyRows_buffer (k : Nat) (hk : k ≤ 24) (s : Display) (j : Nat) :
    (forLoop k (fun y s => forLoop VGA_WIDTH (fun x s => store ((y * VGA_WIDTH + x) % SIZE_MAX1)
        (s.terminal_buffer (((y + 1) * VGA_WIDTH + x) % SIZE_MAX1)) s) s) s).terminal_buffer j =
      if j < k * 80 then s.terminal_buffer (j + 80) else s.terminal_buffer j := by
  induction k generalizing j with
  | zero =>
    have : ¬ (j < 0 * 80) := by omega
    rw [if_neg this]; rfl
  | succ k ih =>
    have hk' : k ≤ 24 := by omega
    refine (copyRow_buffer k (by omega) 80 (le_refl _) _ j).trans ?_
    by_cases c : k * 80 ≤ j ∧ j < k * 80 + 80
    · rw [if_pos c, ih hk' (j + 80)]
      have a : ¬ (j + 80 < k * 80) := by omega
      have b : j < (k + 1) * 80 := by omega
      rw [if_neg a, if_pos b]
    · rw [if_neg c, ih hk' j]
      by_cases d : j < k * 80
      · have b : j < (k + 1) * 80 := by omega
        rw [if_pos d, if_pos b]
      · have b : ¬ (j < (k + 1) * 80) := by omega
        rw [if_neg d, if_neg b]

/-- Contents after the first `n` steps of the loop that blanks the last row. -/
theorem clearRow_buffer (n : Nat) (hn : n ≤ 80) (s : Display) (j : Nat) :
    (forLoop n (fun x s => store (((VGA_HEIGHT - 1) * VGA_WIDTH + x) % SIZE_MAX1)
        (vga_entry 32 s.terminal_color) s) s).terminal_buffer j =
      if 1920 ≤ j ∧ j < 1920 + n then vga_entry 32 s.terminal_color else s.terminal_buffer j := by
  induction n generalizing j with
  | zero =>
    have : ¬ (1920 ≤ j ∧ j < 1920 + 0) := by omega
    rw [if_neg this]; rfl
  | succ n ih =>
    have hn' : n ≤ 80 := by omega
    simp only [forLoop, store_buffer, VGA_WIDTH, VGA_HEIGHT, SIZE_MAX1]
    have e1 : ((25 - 1) * 80 + n) % 4294967296 = 1920 + n := by omega
    rw [e1]
    simp only [VGA_WIDTH, VGA_HEIGHT, SIZE_MAX1] at ih
    have hc := (storeLoop_sameCursor n (fun x => ((25 - 1) * 80 + x) % 4294967296)
      (fun _ s => vga_entry 32 s.terminal_color) s).2.2.1
    by_cases hj : j = 1920 + n
    · subst hj
      have b : 1920 ≤ 1920 + n ∧ 1920 + n < 1920 + (n + 1) := by omega
      rw [if_pos rfl, if_pos b, hc]
    · rw [if_neg hj, ih hn' j]
      by_cases c : 1920 ≤ j ∧ j < 1920 + n
      · have c' : 1920 ≤ j ∧ j < 1920 + (n + 1) := by omega
        rw [if_pos c, if_pos c']
      · have c' : ¬ (1920 ≤ j ∧ j < 1920 + (n + 1)) := by omega
        rw [if_neg c, if_neg c']

theorem copyRows_sameCursor (s : Display) :
    SameCursor s (forLoop (VGA_HEIGHT - 1) (fun y s => forLoop VGA_WIDTH (fun x s =>
      store ((y * VGA_WIDTH + x) % SIZE_MAX1)
        (s.terminal_buffer (((y + 1) * VGA_WIDTH + x) % SIZE_MAX1)) s) s) s) :=
  forLoop_rel SameCursor sameCursor_refl sameCursor_trans _ _ (fun y _ s =>
    storeLoop_sameCursor VGA_WIDTH (fun x => (y * VGA_WIDTH + x) % SIZE_MAX1)
      (fun x s => s.terminal_buffer (((y + 1) * VGA_WIDTH + x) % SIZE_MAX1)) s) s

theorem copyRows_storesBelow (s : Display) :
    StoresBelow 2000 s (forLoop (VGA_HEIGHT - 1) (fun y s => forLoop VGA_WIDTH (fun x s =>
      store ((y * VGA_WIDTH + x) % SIZE_MAX1)
        (s.terminal_buffer (((y + 1) * VGA_WIDTH + x) % SIZE_MAX1)) s) s) s) := by
  refine forLoop_rel (StoresBelow 2000) (storesBelow_refl _) (storesBelow_trans _) _ _
    (fun y hy s => ?_) s
  refine storeLoop_storesBelow 2000 VGA_WIDTH (fun x => (y * VGA_WIDTH + x) % SIZE_MAX1)
    (fun x s => s.terminal_buffer (((y + 1) * VGA_WIDTH + x) % SIZE_MAX1)) ?_ s
  intro x hx
  simp only [VGA_WIDTH, VGA_HEIGHT] at hx hy ⊢
  rw [mod_size _ (by omega)]
  omega

theorem clearRow_storesBelow (s : Display) :
    StoresBelow 2000 s (forLoop VGA_WIDTH (fun x s =>
      store (((VGA_HEIGHT - 1) * VGA_WIDTH + x) % SIZE_MAX1) (vga_entry 32 s.terminal_color) s)
      s) := by
  refine storeLoop_storesBelow 2000 VGA_WIDTH
    (fun x => ((VGA_HEIGHT - 1) * VGA_WIDTH + x) % SIZE_MAX1)
    (fun _ s => vga_entry 32 s.terminal_color) ?_ s
  intro x hx
  simp only [VGA_WIDTH, VGA_HEIGHT] at hx ⊢
  rw [mod_size _ (by omega)]
  omega

theorem terminal_scroll_sameCursor (s : Display) : SameCursor s (terminal_scroll s) :=
  sameCursor_trans _ _ _ (copyRows_sameCursor s)
    (storeLoop_sameCursor VGA_WIDTH (fun x => ((VGA_HEIGHT - 1) * VGA_WIDTH + x) % SIZE_MAX1)
      (fun _ s => vga_entry 32 s.terminal_color) _)

theorem terminal_scroll_storesBelow (s : Display) : StoresBelow 2000 s (terminal_scroll s) :=
  storesBelow_trans _ _ _ _ (copyRows_storesBelow s) (clearRow_storesBelow _)

/-- The framebuffer after `terminal_scroll`, cell by cell. -/
theorem terminal_scroll_buffer (s : Display) (j : Nat) :
    (terminal_scroll s).terminal_buffer j =
      if j < 1920 then s.terminal_buffer (j + 80)
      else if j < 2000 then vga_entry 32 s.terminal_color
      else s.terminal_buffer j := by
  refine (clearRow_buffer 80 (le_refl _) _ j).trans ?_
  have hb : (forLoop (VGA_HEIGHT - 1) (fun y s => forLoop VGA_WIDTH (fun x s =>
      store ((y * VGA_WIDTH + x) % SIZE_MAX1)
        (s.terminal_buffer (((y + 1) * VGA_WIDTH + x) % SIZE_MAX1)) s) s) s).terminal_buffer j =
      if j < 24 * 80 then s.terminal_buffer (j + 80) else s.terminal_buffer j :=
    copyRows_buffer 24 (le_refl _) s j
  rw [(copyRows_sameCursor s).2.2.1, hb]
  by_cases a : j < 1920
  · have a' : ¬ (1920 ≤ j ∧ j < 1920 + 80) := by omega
    have a'' : j < 24 * 80 := by omega
    rw [if_neg a', if_pos a, if_pos a'']
  · have a'' : ¬ j < 24 * 80 := by omega
    by_cases b : j < 2000
    · have b' : (1920 ≤ j ∧ j < 1920 + 80) := by omega
      rw [if_pos b', if_neg a, if_pos b]
    · have b' : ¬ (1920 ≤ j ∧ j < 1920 + 80) := by omega
      rw [if_neg b', if_neg a, if_neg b, if_neg a'']


theorem vga_entry_eq (c a : Nat) (hc : c < 256) (ha : a < 256) :
    vga_entry c a = c ||| (a <<< 8) := by
  unfold vga_entry
  rw [Nat.mod_eq_of_lt hc, Nat.mod_eq_of_lt ha]
  apply Nat.mod_eq_of_lt
  have h1 : c < 2 ^ 16 := by omega
  have h2 : a <<< 8 < 2 ^ 16 := by
    rw [Nat.shiftLeft_eq]; omega
  exact Nat.or_lt_two_pow h1 h2

/-! ## The branches of `terminal_putchar` -/

/-- What both versions of `terminal_putchar` do on a newline above the last row. -/
theorem newline_step_eq (t : Display) (h : t.terminal_row < 24) :
    KernelC.terminal_putchar 10 t =
      terminal_update_cursor { t with terminal_column := 0, terminal_row := t.terminal_row + 1 } ∧
    TerminalC.terminal_putchar 10 t =
      terminal_update_cursor { t with terminal_column := 0, terminal_row := t.terminal_row + 1 } := by
  have e : (t.terminal_row + 1) % SIZE_MAX1 = t.terminal_row + 1 := mod_size _ (by omega)
  have n : ¬ (t.terminal_row + 1 = VGA_HEIGHT) := by simp only [VGA_HEIGHT]; omega
  constructor
  · simp only [KernelC.terminal_putchar, e, if_pos, if_neg n]
  · simp only [TerminalC.terminal_putchar, e, if_pos, if_neg n]

/-- What both versions of `terminal_putchar` do on a newline in the last row. -/
theorem newline_scroll_eq (t : Display) (h : t.terminal_row = 24) :
    KernelC.terminal_putchar 10 t =
      terminal_update_cursor
        (terminal_scroll { t with terminal_column := 0, terminal_row := 24 }) ∧
    TerminalC.terminal_putchar 10 t =
      terminal_update_cursor
        (terminal_scroll { t with terminal_column := 0, terminal_row := 24 }) := by
  have e : (t.terminal_row + 1) % SIZE_MAX1 = VGA_HEIGHT := by
    rw [h]; rfl
  constructor
  · simp only [KernelC.terminal_putchar, e, if_pos]; rfl
  · simp only [TerminalC.terminal_putchar, e, if_pos]; rfl


/-- Away from backspace the two versions of `terminal_putchar` are the same function. -/
theorem putchar_agree (c : Nat) (h : c ≠ 8) (t : Display) :
    TerminalC.terminal_putchar c t = KernelC.terminal_putchar c t := by
  simp only [TerminalC.terminal_putchar, KernelC.terminal_putchar, if_neg h]

/-- An ordinary character left of the last column. -/
theorem ordinary_step_eq (c : Nat) (hc : c ≠ 10) (t : Display) (h : t.terminal_column < 79) :
    KernelC.terminal_putchar c t =
      terminal_update_cursor
        { terminal_putentryat c t.terminal_color t.terminal_column t.terminal_row t with
          terminal_column := t.terminal_column + 1 } := by
  have e : (t.terminal_column + 1) % SIZE_MAX1 = t.terminal_column + 1 := mod_size _ (by omega)
  have n : ¬ (t.terminal_column + 1 = VGA_WIDTH) := by simp only [VGA_WIDTH]; omega
  have e' : (terminal_putentryat c t.terminal_color t.terminal_column t.terminal_row
      t).terminal_column = t.terminal_column := rfl
  simp only [KernelC.terminal_putchar, if_neg hc, e', e, if_neg n]

/-- An ordinary character in the last column, above the last row. -/
theorem ordinary_wrap_eq (c : Nat) (hc : c ≠ 10) (t : Display) (h : t.terminal_column = 79)
    (hr : t.terminal_row < 24) :
    KernelC.terminal_putchar c t =
      terminal_update_cursor
        { terminal_putentryat c t.terminal_color t.terminal_column t.terminal_row t with
          terminal_column := 0, terminal_row := t.terminal_row + 1 } := by
  have e' : (terminal_putentryat c t.terminal_color t.terminal_column t.terminal_row
      t).terminal_column = t.terminal_column := rfl
  have r' : (terminal_putentryat c t.terminal_color t.terminal_column t.terminal_row
      t).terminal_row = t.terminal_row := rfl
  have e : (t.terminal_column + 1) % SIZE_MAX1 = VGA_WIDTH := by rw [h]; rfl
  have er : (t.terminal_row + 1) % SIZE_MAX1 = t.terminal_row + 1 := mod_size _ (by omega)
  have n : ¬ (t.terminal_row + 1 = VGA_HEIGHT) := by simp only [VGA_HEIGHT]; omega
  simp only [KernelC.terminal_putchar, if_neg hc, e', r', e, er, if_pos, if_neg n]

/-- An ordinary character in the last column of the last row. -/
theorem ordinary_scroll_eq (c : Nat) (hc : c ≠ 10) (t : Display) (h : t.terminal_column = 79)
    (hr : t.terminal_row = 24) :
    KernelC.terminal_putchar c t =
      terminal_update_cursor (terminal_scroll
        { terminal_putentryat c t.terminal_color t.terminal_column t.terminal_row t with
          terminal_column := 0, terminal_row := 24 }) := by
  have e' : (terminal_putentryat c t.terminal_color t.terminal_column t.terminal_row
      t).terminal_column = t.terminal_column := rfl
  have r' : (terminal_putentryat c t.terminal_color t.terminal_column t.terminal_row
      t).terminal_row = t.terminal_row := rfl
  have e : (t.terminal_column + 1) % SIZE_MAX1 = VGA_WIDTH := by rw [h]; rfl
  have er : (t.terminal_row + 1) % SIZE_MAX1 = VGA_HEIGHT := by rw [hr]; rfl
  simp only [KernelC.terminal_putchar, if_neg hc, e', r', e, er, if_pos]
  rfl

/-- Backspace in `terminal.c` right of the first column. -/
theorem backspace_erase_eq (t : Display) (h : 0 < t.terminal_column) :
    TerminalC.terminal_putchar 8 t =
      terminal_update_cursor
        (terminal_putentryat 32 t.terminal_color (t.terminal_column - 1) t.terminal_row
          { t with terminal_column := t.terminal_column - 1 }) := by
  have n : ¬ ((8 : Nat) = 10) := by decide
  have g : t.terminal_column > 0 := h
  simp only [TerminalC.terminal_putchar, if_neg n, if_pos, if_pos g]

/-- Backspace in `terminal.c` in the first column below the first row. -/
theorem backspace_wrap_eq (t : Display) (h : t.terminal_column = 0) (hr : 0 < t.terminal_row) :
    TerminalC.terminal_putchar 8 t =
      terminal_update_cursor
        { t with terminal_column := 79, terminal_row := t.terminal_row - 1 } := by
  have n : ¬ ((8 : Nat) = 10) := by decide
  have g : ¬ (t.terminal_column > 0) := by omega
  have g' : t.terminal_row > 0 := hr
  simp only [TerminalC.terminal_putchar, if_neg n, if_pos, if_neg g, if_pos g']
  rfl

/-- Backspace in `terminal.c` at the home position. -/
theorem backspace_home_eq (t : Display) (h : t.terminal_column = 0) (hr : t.terminal_row = 0) :
    TerminalC.terminal_putchar 8 t = terminal_update_cursor t := by
  have n : ¬ ((8 : Nat) = 10) := by decide
  have g : ¬ (t.terminal_column > 0) := by omega
  have g' : ¬ (t.terminal_row > 0) := by omega
  simp only [TerminalC.terminal_putchar, if_neg n, if_pos, if_neg g, if_neg g']


/-! ## Strings and the write loop -/

/-- The characters of a string up to its terminator. -/
theorem strlen_eq (data : List Nat) (h : 0 ∈ data) :
    strlen data = some (data.takeWhile (fun c => c ≠ 0)).length := by
  induction data with
  | nil => simp at h
  | cons c cs ih =>
    by_cases hc : c = 0
    · subst hc
      simp [strlen]
    · have h' : 0 ∈ cs := by
        rcases List.mem_cons.mp h with e | e
        · exact absurd e.symm hc
        · exact e
      simp [strlen, hc, ih h']

theorem strlen_terminated (line rest : List Nat) (h : 0 ∉ line) :
    strlen (line ++ 0 :: rest) = some line.length := by
  induction line with
  | nil => simp [strlen]
  | cons c cs ih =>
    have hc : c ≠ 0 := fun e => h (by simp [e])
    have h' : 0 ∉ cs := fun e => h (List.mem_cons_of_mem _ e)
    simp [strlen, hc, ih h']

theorem takeWhile_terminated (line rest : List Nat) (h : 0 ∉ line) :
    (line ++ 0 :: rest).takeWhile (fun c => c ≠ 0) = line := by
  induction line with
  | nil => simp
  | cons c cs ih =>
    have hc : c ≠ 0 := fun e => h (by simp [e])
    have h' : 0 ∉ cs := fun e => h (List.mem_cons_of_mem _ e)
    have e := ih h'
    rw [List.cons_append, List.takeWhile_cons, e]
    simp [hc]

/-- The write loop is a left fold of the character output over the first `size` bytes. -/
theorem writeLoop_eq (pc : Nat → Display → Display) (data : List Nat) (size : Nat)
    (h : size ≤ data.length) (t : Display) :
    forLoopM size (fun i s => (data[i]?).map (fun c => pc c s)) t =
      some ((data.take size).foldl (fun s c => pc c s) t) := by
  induction size with
  | zero => simp [forLoopM]
  | succ n ih =>
    have hn : n < data.length := h
    rw [forLoopM, ih (Nat.le_of_lt hn), Option.some_bind, List.getElem?_eq_getElem hn,
      Option.map_some', List.take_succ, List.foldl_append, List.getElem?_eq_getElem hn]
    rfl

theorem writestring_eq (pc : Nat → Display → Display) (data : List Nat) (h : 0 ∈ data)
    (t : Display) :
    (strlen data).bind (fun n =>
      forLoopM n (fun i s => (data[i]?).map (fun c => pc c s)) t) =
      some ((data.takeWhile (fun c => c ≠ 0)).foldl (fun s c => pc c s) t) := by
  have hp : (data.takeWhile (fun c => c ≠ 0)) <+: data := List.takeWhile_prefix _
  rw [strlen_eq data h, Option.some_bind, writeLoop_eq pc data _ hp.length_le,
    ← List.prefix_iff_eq_take.mp hp]

/-- A property of states preserved by every character output is preserved by the fold, and a
reflexive, transitive relation established by every character output from such a state holds
across the fold. -/
theorem foldl_putchar_inv (pc : Nat → Display → Display) (P : Display → Prop)
    (R : Display → Display → Prop) (hrefl : ∀ s, R s s)
    (htrans : ∀ a b c, R a b → R b c → R a c)
    (step : ∀ c t, P t → P (pc c t) ∧ R t (pc c t)) (l : List Nat) (t : Display) (ht : P t) :
    P (l.foldl (fun s c => pc c s) t) ∧ R t (l.foldl (fun s c => pc c s) t) := by
  induction l generalizing t with
  | nil => exact ⟨ht, hrefl t⟩
  | cons c cs ih =>
    have h1 := step c t ht
    have h2 := ih (pc c t) h1.1
    exact ⟨h2.1, htrans _ _ _ h1.2 h2.2⟩


/-! ## The cursor invariant -/

theorem storesBelow_of_writes (N : Nat) (s s' s'' : Display) (h : StoresBelow N s s')
    (e : s''.writes = s'.writes) : StoresBelow N s s'' := by
  obtain ⟨l, hl, hb⟩ := h
  exact ⟨l, e.trans hl, hb⟩

theorem storesBelow_from_writes (N : Nat) (s0 s s' : Display) (h : StoresBelow N s s')
    (e : s.writes = s0.writes) : StoresBelow N s0 s' := by
  obtain ⟨l, hl, hb⟩ := h
  exact ⟨l, e ▸ hl, hb⟩

theorem update_cursor_row (t : Display) :
    (terminal_update_cursor t).terminal_row = t.terminal_row := rfl

theorem update_cursor_column (t : Display) :
    (terminal_update_cursor t).terminal_column = t.terminal_column := rfl

theorem update_cursor_color (t : Display) :
    (terminal_update_cursor t).terminal_color = t.terminal_color := rfl

theorem update_cursor_buffer (t : Display) :
    (terminal_update_cursor t).terminal_buffer = t.terminal_buffer := rfl

theorem update_cursor_writes (t : Display) :
    (terminal_update_cursor t).writes = t.writes := rfl

theorem inBounds_of (t : Display) (r c : Nat) (hr : t.terminal_row = r)
    (hc : t.terminal_column = c) (h1 : r < 25) (h2 : c < 80) : InBounds t := by
  subst hr; subst hc
  exact ⟨h1, h2⟩

theorem putentryat_storesBelow (c a : Nat) (t s : Display) (h : InBounds t)
    (e : s.writes = t.writes) :
    StoresBelow 2000 t (terminal_putentryat c a t.terminal_column t.terminal_row s) := by
  obtain ⟨hr, hc⟩ := h
  simp only [VGA_HEIGHT, VGA_WIDTH] at hr hc
  refine storesBelow_from_writes _ _ _ _ (store_storesBelow 2000 _ _ s ?_) e
  simp only [VGA_WIDTH]
  rw [mod_size _ (by omega)]
  omega

theorem kernel_putchar_inv (c : Nat) (t : Display) (h : InBounds t) :
    InBounds (KernelC.terminal_putchar c t) ∧ StoresBelow 2000 t (KernelC.terminal_putchar c t) := by
  have hb := h
  obtain ⟨hr, hc⟩ := hb
  simp only [VGA_HEIGHT, VGA_WIDTH] at hr hc
  by_cases c10 : c = 10
  · subst c10
    by_cases r : t.terminal_row < 24
    · rw [(newline_step_eq t r).1]
      refine ⟨⟨?_, ?_⟩, storesBelow_refl _ _⟩
      · show t.terminal_row + 1 < 25
        omega
      · show 0 < 80
        omega
    · have r' : t.terminal_row = 24 := by omega
      rw [(newline_scroll_eq t r').1]
      have sc := terminal_scroll_sameCursor { t with terminal_column := 0, terminal_row := 24 }
      have sb := terminal_scroll_storesBelow { t with terminal_column := 0, terminal_row := 24 }
      exact ⟨inBounds_of _ 24 0 (by rw [update_cursor_row, sc.1])
          (by rw [update_cursor_column, sc.2.1]) (by decide) (by decide),
        storesBelow_of_writes _ _ _ _ (storesBelow_from_writes _ t _ _ sb rfl)
          (update_cursor_writes _)⟩
  · have ps := putentryat_storesBelow c t.terminal_color t t h rfl
    by_cases k : t.terminal_column < 79
    · rw [ordinary_step_eq c c10 t k]
      refine ⟨⟨?_, ?_⟩, storesBelow_of_writes _ _ _ _ ps rfl⟩
      · exact hr
      · show t.terminal_column + 1 < 80
        omega
    · have k' : t.terminal_column = 79 := by omega
      by_cases r : t.terminal_row < 24
      · rw [ordinary_wrap_eq c c10 t k' r]
        refine ⟨⟨?_, ?_⟩, storesBelow_of_writes _ _ _ _ ps rfl⟩
        · show t.terminal_row + 1 < 25
          omega
        · exact (by decide : 0 < 80)
      · have r' : t.terminal_row = 24 := by omega
        rw [ordinary_scroll_eq c c10 t k' r']
        have sc := terminal_scroll_sameCursor
          { terminal_putentryat c t.terminal_color t.terminal_column t.terminal_row t with
            terminal_column := 0, terminal_row := 24 }
        have sb := terminal_scroll_storesBelow
          { terminal_putentryat c t.terminal_color t.terminal_column t.terminal_row t with
            terminal_column := 0, terminal_row := 24 }
        exact ⟨inBounds_of _ 24 0 (by rw [update_cursor_row, sc.1])
            (by rw [update_cursor_column, sc.2.1]) (by decide) (by decide),
          storesBelow_of_writes _ _ _ _ (storesBelow_trans _ _ _ _ ps
            (storesBelow_from_writes _ _ _ _ sb rfl)) (update_cursor_writes _)⟩

theorem terminal_putchar_inv (c : Nat) (t : Display) (h : InBounds t) :
    InBounds (TerminalC.terminal_putchar c t) ∧
      StoresBelow 2000 t (TerminalC.terminal_putchar c t) := by
  by_cases c8 : c = 8
  · subst c8
    have hb := h
    obtain ⟨hr, hc⟩ := hb
    simp only [VGA_HEIGHT, VGA_WIDTH] at hr hc
    by_cases k : 0 < t.terminal_column
    · rw [backspace_erase_eq t k]
      refine ⟨⟨hr, ?_⟩, ?_⟩
      · show t.terminal_column - 1 < 80
        omega
      · have hi : InBounds { t with terminal_column := t.terminal_column - 1 } := by
          refine ⟨hr, ?_⟩
          show t.terminal_column - 1 < 80
          omega
        exact storesBelow_of_writes _ _ _ _ (storesBelow_from_writes _ t _ _
          (putentryat_storesBelow 32 t.terminal_color
            { t with terminal_column := t.terminal_column - 1 }
            { t with terminal_column := t.terminal_column - 1 } hi rfl) rfl) rfl
    · have k' : t.terminal_column = 0 := by omega
      by_cases r : 0 < t.terminal_row
      · rw [backspace_wrap_eq t k' r]
        refine ⟨⟨?_, ?_⟩, storesBelow_refl _ _⟩
        · show t.terminal_row - 1 < 25
          omega
        · exact (by decide : 79 < 80)
      · rw [backspace_home_eq t k' (by omega)]
        exact ⟨h, storesBelow_refl _ _⟩
  · rw [putchar_agree c c8 t]
    exact kernel_putchar_inv c t h

theorem terminal_initialize_inv (t : Display) :
    InBounds ( terminal_initialize t) ∧ StoresBelow 2000 t ( terminal_initialize t) := by
  have sc : SameCursor
      { t with terminal_row := 0, terminal_column := 0,
               terminal_color := vga_entry_color VGA_COLOR_LIGHT_GREY VGA_COLOR_BLACK }
      ( terminal_initialize t) :=
    forLoop_rel SameCursor sameCursor_refl sameCursor_trans _ _ (fun y _ s =>
      storeLoop_sameCursor VGA_WIDTH (fun x => (y * VGA_WIDTH + x) % SIZE_MAX1)
        (fun _ s => vga_entry 32 s.terminal_color) s) _
  have sb : StoresBelow 2000
      { t with terminal_row := 0, terminal_column := 0,
               terminal_color := vga_entry_color VGA_COLOR_LIGHT_GREY VGA_COLOR_BLACK }
      ( terminal_initialize t) := by
    refine forLoop_rel (StoresBelow 2000) (storesBelow_refl _) (storesBelow_trans _) _ _
      (fun y hy s => ?_) _
    refine storeLoop_storesBelow 2000 VGA_WIDTH (fun x => (y * VGA_WIDTH + x) % SIZE_MAX1)
      (fun _ s => vga_entry 32 s.terminal_color) ?_ s
    intro x hx
    simp only [VGA_WIDTH, VGA_HEIGHT] at hx hy ⊢
    rw [mod_size _ (by omega)]
    omega
  refine ⟨⟨?_, ?_⟩, storesBelow_from_writes _ t _ _ sb rfl⟩
  · rw [sc.1]; exact (by decide : 0 < 25)
  · rw [sc.2.1]; exact (by decide : 0 < 80)

/-- C1. The cursor invariant `terminal_row < 25`, `terminal_column < 80`: both versions of
`terminal_putchar` preserve it and store only at cell indices below 2000, `terminal_initialize`
establishes it, and `terminal_write`, `terminal_writestring` and `terminal_writestring_color`
(both files) return and preserve it, storing only at cell indices below 2000. -/
theorem cursor_in_bounds_invariant :
    (∀ (t : Display) (c : Nat), InBounds t →
      InBounds (TerminalC.terminal_putchar c t) ∧
      StoresBelow 2000 t (TerminalC.terminal_putchar c t)) ∧
    (∀ (t : Display) (c : Nat), InBounds t →
      InBounds (KernelC.terminal_putchar c t) ∧
      StoresBelow 2000 t (KernelC.terminal_putchar c t)) ∧
    (∀ t : Display, InBounds ( terminal_initialize t) ∧
      StoresBelow 2000 t ( terminal_initialize t)) ∧
    (∀ (t : Display) (data : List Nat) (size : Nat), InBounds t → size ≤ data.length →
      (∃ t', TerminalC.terminal_write data size t = some t' ∧ InBounds t' ∧
        StoresBelow 2000 t t') ∧
      (∃ t', KernelC.terminal_write data size t = some t' ∧ InBounds t' ∧
        StoresBelow 2000 t t')) ∧
    (∀ (t : Display) (data : List Nat), InBounds t → 0 ∈ data →
      (∃ t', TerminalC.terminal_writestring data t = some t' ∧ InBounds t' ∧
        StoresBelow 2000 t t') ∧
      (∃ t', KernelC.terminal_writestring data t = some t' ∧ InBounds t' ∧
        StoresBelow 2000 t t')) ∧
    (∀ (t : Display) (data : List Nat) (color : Nat), InBounds t → 0 ∈ data →
      (∃ t', TerminalC.terminal_writestring_color data color t = some t' ∧ InBounds t' ∧
        StoresBelow 2000 t t') ∧
      (∃ t', KernelC.terminal_writestring_color data color t = some t' ∧ InBounds t' ∧
        StoresBelow 2000 t t')) := by
  have tfold := fun (l : List Nat) (t : Display) (h : InBounds t) =>
    foldl_putchar_inv TerminalC.terminal_putchar InBounds (StoresBelow 2000)
      (storesBelow_refl _) (storesBelow_trans _) terminal_putchar_inv l t h
  have kfold := fun (l : List Nat) (t : Display) (h : InBounds t) =>
    foldl_putchar_inv KernelC.terminal_putchar InBounds (StoresBelow 2000)
      (storesBelow_refl _) (storesBelow_trans _) kernel_putchar_inv l t h
  refine ⟨fun t c h => terminal_putchar_inv c t h, fun t c h => kernel_putchar_inv c t h,
    terminal_initialize_inv, ?_, ?_, ?_⟩
  · intro t data size h hs
    exact ⟨⟨_, writeLoop_eq TerminalC.terminal_putchar data size hs t, tfold _ t h⟩,
      ⟨_, writeLoop_eq KernelC.terminal_putchar data size hs t, kfold _ t h⟩⟩
  · intro t data h h0
    exact ⟨⟨_, writestring_eq TerminalC.terminal_putchar data h0 t, tfold _ t h⟩,
      ⟨_, writestring_eq KernelC.terminal_putchar data h0 t, kfold _ t h⟩⟩
  · intro t data color h h0
    have e1 : TerminalC.terminal_writestring_color data color t =
        some (terminal_setcolor t.terminal_color ((data.takeWhile (fun c => c ≠ 0)).foldl
          (fun s c => TerminalC.terminal_putchar c s) (terminal_setcolor color t))) := by
      unfold TerminalC.terminal_writestring_color TerminalC.terminal_writestring
        TerminalC.terminal_write
      simp only []
      rw [writestring_eq TerminalC.terminal_putchar data h0]
      rfl
    have e2 : KernelC.terminal_writestring_color data color t =
        some (terminal_setcolor t.terminal_color ((data.takeWhile (fun c => c ≠ 0)).foldl
          (fun s c => KernelC.terminal_putchar c s) (terminal_setcolor color t))) := by
      unfold KernelC.terminal_writestring_color KernelC.terminal_writestring
        KernelC.terminal_write
      simp only []
      rw [writestring_eq KernelC.terminal_putchar data h0]
      rfl
    have h1 := tfold (data.takeWhile (fun c => c ≠ 0)) (terminal_setcolor color t) h
    have h2 := kfold (data.takeWhile (fun c => c ≠ 0)) (terminal_setcolor color t) h
    exact ⟨⟨_, e1, h1.1, storesBelow_of_writes _ _ _ _
        (storesBelow_from_writes _ t _ _ h1.2 rfl) rfl⟩,
      ⟨_, e2, h2.1, storesBelow_of_writes _ _ _ _
        (storesBelow_from_writes _ t _ _ h2.2 rfl) rfl⟩⟩

theorem cursor_in_bounds_invariant_witness :
    InBounds sampleDisplay ∧ InBounds (TerminalC.terminal_putchar 65 sampleDisplay) ∧
      InBounds (KernelC.terminal_putchar 65 sampleDisplay) :=
  ⟨by decide, (cursor_in_bounds_invariant.1 sampleDisplay 65 (by decide)).1,
    (cursor_in_bounds_invariant.2.1 sampleDisplay 65 (by decide)).1⟩


/-! ## Scrolling, newline and ordinary characters -/

/-- The grid after a scroll depends only on the grid and the color before it. -/
theorem terminal_scroll_buffer_congr (s s2 : Display)
    (hb : s2.terminal_buffer = s.terminal_buffer) (hc : s2.terminal_color = s.terminal_color) :
    (terminal_scroll s2).terminal_buffer = (terminal_scroll s).terminal_buffer := by
  funext j
  rw [terminal_scroll_buffer, terminal_scroll_buffer, hb, hc]

/-- C5. After `terminal_scroll` the cell at `(y, x)` is the old cell at `(y + 1, x)` for
`y < 24`, `x < 80`; every cell of row 24 is `vga_entry(32, color)`, which is `0x20 | color << 8`
for a color that fits a byte; two grids that agree on rows 1 to 24 scroll to the same grid, so the
old row 0 influences no cell; cursor and color are unchanged. -/
theorem scroll_shifts_rows_up (s : Display) :
    (∀ y x, y < 24 → x < 80 → ( terminal_scroll s).cell y x = s.cell (y + 1) x) ∧
    (∀ x, x < 80 → ( terminal_scroll s).cell 24 x = vga_entry 32 s.terminal_color) ∧
    (s.terminal_color < 256 →
      vga_entry 32 s.terminal_color = 0x20 ||| (s.terminal_color <<< 8)) ∧
    (∀ s2 : Display, s2.terminal_color = s.terminal_color →
      (∀ y x, 1 ≤ y → y < 25 → x < 80 → s2.cell y x = s.cell y x) →
      ∀ y x, y < 25 → x < 80 → ( terminal_scroll s2).cell y x = ( terminal_scroll s).cell y x) ∧
    ( terminal_scroll s).terminal_row = s.terminal_row ∧
    ( terminal_scroll s).terminal_column = s.terminal_column ∧
    ( terminal_scroll s).terminal_color = s.terminal_color := by
  have up : ∀ (d : Display) (y x : Nat), y < 24 → x < 80 →
      (terminal_scroll d).cell y x = d.cell (y + 1) x := by
    intro d y x hy hx
    unfold Display.cell
    simp only [VGA_WIDTH]
    rw [terminal_scroll_buffer, if_pos (by omega)]
    congr 1
    omega
  have last : ∀ (d : Display) (x : Nat), x < 80 →
      (terminal_scroll d).cell 24 x = vga_entry 32 d.terminal_color := by
    intro d x hx
    unfold Display.cell
    simp only [VGA_WIDTH]
    rw [terminal_scroll_buffer, if_neg (by omega), if_pos (by omega)]
  have sc := terminal_scroll_sameCursor s
  refine ⟨up s, last s, fun ha => vga_entry_eq 32 _ (by decide) ha, ?_, sc.1, sc.2.1, sc.2.2.1⟩
  intro s2 hc hcells y x hy hx
  by_cases h24 : y < 24
  · rw [up s2 y x h24 hx, up s y x h24 hx]
    exact hcells (y + 1) x (by omega) (by omega) hx
  · have e : y = 24 := by omega
    subst e
    rw [last s2 x hx, last s x hx, hc]

theorem scroll_shifts_rows_up_witness :
    ( terminal_scroll sampleDisplay).cell 3 5 = sampleDisplay.cell 4 5 ∧
      ( terminal_scroll sampleDisplay).cell 24 79 = 0x0720 :=
  ⟨(scroll_shifts_rows_up sampleDisplay).1 3 5 (by decide) (by decide),
    (scroll_shifts_rows_up sampleDisplay).2.1 79 (by decide)⟩

theorem set_column_row_eq (t : Display) (c r : Nat) (h : t.terminal_row = r) :
    ({ t with terminal_column := c, terminal_row := r } : Display) =
      { t with terminal_column := c } := by
  subst h
  rfl

/-- C4. On a newline both versions of `terminal_putchar` set the column to 0 and keep the color;
above the last row the row grows by one and neither a cell nor the store log changes; in the last
row the row stays 24 and the state is exactly that of one `terminal_scroll` after the column was
set to 0, followed by the cursor update, so the grid is that of one scroll. -/
theorem newline_output (t : Display) (h : InBounds t) :
    (KernelC.terminal_putchar 10 t = TerminalC.terminal_putchar 10 t) ∧
    (TerminalC.terminal_putchar 10 t).terminal_column = 0 ∧
    (TerminalC.terminal_putchar 10 t).terminal_color = t.terminal_color ∧
    (t.terminal_row < 24 →
      (TerminalC.terminal_putchar 10 t).terminal_row = t.terminal_row + 1 ∧
      (TerminalC.terminal_putchar 10 t).terminal_buffer = t.terminal_buffer ∧
      (TerminalC.terminal_putchar 10 t).writes = t.writes) ∧
    (t.terminal_row = 24 →
      (TerminalC.terminal_putchar 10 t).terminal_row = 24 ∧
      TerminalC.terminal_putchar 10 t =
        terminal_update_cursor ( terminal_scroll { t with terminal_column := 0 }) ∧
      (TerminalC.terminal_putchar 10 t).terminal_buffer = ( terminal_scroll t).terminal_buffer) := by
  obtain ⟨hr, _⟩ := h
  simp only [VGA_HEIGHT] at hr
  have agree : KernelC.terminal_putchar 10 t = TerminalC.terminal_putchar 10 t :=
    (putchar_agree 10 (by decide) t).symm
  by_cases r : t.terminal_row < 24
  · have e := (newline_step_eq t r).2
    refine ⟨agree, ?_, ?_, ?_, ?_⟩
    · rw [e]; rfl
    · rw [e]; rfl
    · intro _
      rw [e]
      exact ⟨rfl, rfl, rfl⟩
    · intro r'
      omega
  · have r' : t.terminal_row = 24 := by omega
    have e := (newline_scroll_eq t r').2
    rw [set_column_row_eq t 0 24 r'] at e
    have sc := terminal_scroll_sameCursor { t with terminal_column := 0 }
    refine ⟨agree, ?_, ?_, ?_, ?_⟩
    · rw [e, update_cursor_column, sc.2.1]
    · rw [e, update_cursor_color, sc.2.2.1]
    · intro r''
      omega
    · intro _
      refine ⟨?_, e, ?_⟩
      · rw [e, update_cursor_row, sc.1]
        exact r'
      · rw [e, update_cursor_buffer]
        exact terminal_scroll_buffer_congr t _ rfl rfl

theorem newline_output_witness :
    InBounds sampleDisplay ∧ (TerminalC.terminal_putchar 10 sampleDisplay).terminal_row = 24 ∧
      (TerminalC.terminal_putchar 10 sampleDisplay).terminal_column = 0 :=
  ⟨by decide, ((newline_output sampleDisplay (by decide)).2.2.2.2 (by decide)).1,
    (newline_output sampleDisplay (by decide)).2.1⟩


theorem putentryat_buffer (c a x y : Nat) (t : Display) (j : Nat) :
    (terminal_putentryat c a x y t).terminal_buffer j =
      if j = (y * VGA_WIDTH + x) % SIZE_MAX1 then vga_entry c a else t.terminal_buffer j := rfl

theorem putentryat_writes (c a x y : Nat) (t : Display) :
    (terminal_putentryat c a x y t).writes = t.writes ++ [(y * VGA_WIDTH + x) % SIZE_MAX1] := rfl

theorem cursor_index (t : Display) (h : InBounds t) :
    (t.terminal_row * VGA_WIDTH + t.terminal_column) % SIZE_MAX1 =
      t.terminal_row * 80 + t.terminal_column := by
  obtain ⟨hr, hc⟩ := h
  simp only [VGA_HEIGHT, VGA_WIDTH] at hr hc ⊢
  exact mod_size _ (by omega)

/-- C3. For a byte `c` other than newline and backspace, `terminal_putchar(c)` of `terminal.c`
stores `vga_entry(c, color)` (which is `c | color << 8`) at the cursor. Left of the last column the
cursor moves one column right and no other cell changes; in the last column above the last row it
moves to the start of the next row and no other cell changes; in the last column of the last row
the row stays 24, the column becomes 0 and the grid is scrolled once after the store, so that the
character is at row 23, column 79 and row 24 is blank. The color never changes. -/
theorem ordinary_character_output (t : Display) (c : Nat) (h : InBounds t) (hc : c < 256)
    (hn : c ≠ 10) (hb : c ≠ 8) :
    (t.terminal_color < 256 →
      vga_entry c t.terminal_color = c ||| (t.terminal_color <<< 8)) ∧
    (TerminalC.terminal_putchar c t).terminal_color = t.terminal_color ∧
    (t.terminal_column < 79 →
      (TerminalC.terminal_putchar c t).terminal_row = t.terminal_row ∧
      (TerminalC.terminal_putchar c t).terminal_column = t.terminal_column + 1 ∧
      (∀ j, (TerminalC.terminal_putchar c t).terminal_buffer j =
        if j = t.terminal_row * 80 + t.terminal_column then vga_entry c t.terminal_color
        else t.terminal_buffer j) ∧
      (TerminalC.terminal_putchar c t).writes =
        t.writes ++ [t.terminal_row * 80 + t.terminal_column]) ∧
    (t.terminal_column = 79 → t.terminal_row < 24 →
      (TerminalC.terminal_putchar c t).terminal_row = t.terminal_row + 1 ∧
      (TerminalC.terminal_putchar c t).terminal_column = 0 ∧
      (∀ j, (TerminalC.terminal_putchar c t).terminal_buffer j =
        if j = t.terminal_row * 80 + t.terminal_column then vga_entry c t.terminal_color
        else t.terminal_buffer j) ∧
      (TerminalC.terminal_putchar c t).writes =
        t.writes ++ [t.terminal_row * 80 + t.terminal_column]) ∧
    (t.terminal_column = 79 → t.terminal_row = 24 →
      (TerminalC.terminal_putchar c t).terminal_row = 24 ∧
      (TerminalC.terminal_putchar c t).terminal_column = 0 ∧
      TerminalC.terminal_putchar c t =
        terminal_update_cursor ( terminal_scroll
          { terminal_putentryat c t.terminal_color 79 24 t with terminal_column := 0 }) ∧
      (TerminalC.terminal_putchar c t).cell 23 79 = vga_entry c t.terminal_color ∧
      (∀ x, x < 80 →
        (TerminalC.terminal_putchar c t).cell 24 x = vga_entry 32 t.terminal_color) ∧
      (∀ y x, y < 24 → x < 80 → ¬ (y = 23 ∧ x = 79) →
        (TerminalC.terminal_putchar c t).cell y x = t.cell (y + 1) x)) := by
  have hh := h
  obtain ⟨hr, hcol⟩ := hh
  simp only [VGA_HEIGHT, VGA_WIDTH] at hr hcol
  have idx := cursor_index t h
  rw [putchar_agree c hb t]
  refine ⟨fun ha => vga_entry_eq c _ hc ha, ?_, ?_, ?_, ?_⟩
  · by_cases k : t.terminal_column < 79
    · rw [ordinary_step_eq c hn t k]; rfl
    · have k' : t.terminal_column = 79 := by omega
      by_cases r : t.terminal_row < 24
      · rw [ordinary_wrap_eq c hn t k' r]; rfl
      · rw [ordinary_scroll_eq c hn t k' (by omega), update_cursor_color,
          (terminal_scroll_sameCursor _).2.2.1]
        rfl
  · intro k
    rw [ordinary_step_eq c hn t k]
    refine ⟨rfl, rfl, ?_, ?_⟩
    · intro j
      rw [update_cursor_buffer]
      show (terminal_putentryat c t.terminal_color t.terminal_column t.terminal_row
        t).terminal_buffer j = _
      rw [putentryat_buffer, idx]
    · rw [update_cursor_writes]
      show (terminal_putentryat c t.terminal_color t.terminal_column t.terminal_row t).writes = _
      rw [putentryat_writes, idx]
  · intro k r
    rw [ordinary_wrap_eq c hn t k r]
    refine ⟨rfl, rfl, ?_, ?_⟩
    · intro j
      rw [update_cursor_buffer]
      show (terminal_putentryat c t.terminal_color t.terminal_column t.terminal_row
        t).terminal_buffer j = _
      rw [putentryat_buffer, idx]
    · rw [update_cursor_writes]
      show (terminal_putentryat c t.terminal_color t.terminal_column t.terminal_row t).writes = _
      rw [putentryat_writes, idx]
  · intro k r
    have e := ordinary_scroll_eq c hn t k r
    rw [k, r] at e
    have e2 : ({ terminal_putentryat c t.terminal_color 79 24 t with
        terminal_column := 0, terminal_row := 24 } : Display) =
        { terminal_putentryat c t.terminal_color 79 24 t with terminal_column := 0 } :=
      set_column_row_eq _ 0 24 r
    rw [e2] at e
    have sc := terminal_scroll_sameCursor
      { terminal_putentryat c t.terminal_color 79 24 t with terminal_column := 0 }
    have cellAt : ∀ y x, (terminal_update_cursor ( terminal_scroll
        { terminal_putentryat c t.terminal_color 79 24 t with terminal_column := 0 })).cell y x =
        if y * 80 + x < 1920 then
          (if y * 80 + x + 80 = 1999 then vga_entry c t.terminal_color
           else t.terminal_buffer (y * 80 + x + 80))
        else if y * 80 + x < 2000 then vga_entry 32 t.terminal_color
        else (if y * 80 + x = 1999 then vga_entry c t.terminal_color
           else t.terminal_buffer (y * 80 + x)) := by
      intro y x
      unfold Display.cell
      rw [update_cursor_buffer, terminal_scroll_buffer]
      rfl
    rw [e]
    refine ⟨?_, ?_, rfl, ?_, ?_, ?_⟩
    · rw [update_cursor_row, sc.1]
      exact r
    · rw [update_cursor_column, sc.2.1]
    · rw [cellAt]
      rfl
    · intro x hx
      rw [cellAt, if_neg (by omega), if_pos (by omega)]
    · intro y x hy hx hne
      rw [cellAt, if_pos (by omega), if_neg (by omega)]
      unfold Display.cell
      simp only [VGA_WIDTH]
      congr 1
      omega

theorem ordinary_character_output_witness :
    InBounds sampleDisplay ∧
      (TerminalC.terminal_putchar 65 sampleDisplay).cell 23 79 = 0x0741 ∧
      (TerminalC.terminal_putchar 65 sampleDisplay).terminal_column = 0 :=
  ⟨by decide,
    ((ordinary_character_output sampleDisplay 65 (by decide) (by decide) (by decide)
      (by decide)).2.2.2.2 (by decide) (by decide)).2.2.2.1,
    ((ordinary_character_output sampleDisplay 65 (by decide) (by decide) (by decide)
      (by decide)).2.2.2.2 (by decide) (by decide)).2.1⟩


/-! ## The branches of the loop of `readline` -/

theorem limit_eq (buffer_size : Nat) (h1 : 1 ≤ buffer_size) (h2 : buffer_size < 4294967296) :
    (buffer_size + SIZE_MAX1 - 1) % SIZE_MAX1 = buffer_size - 1 := by
  simp only [SIZE_MAX1]
  omega

theorem loop_exit (n : Nat) (stream : List Nat) (st : KernelC.LineReader)
    (h : ¬ st.i < (n + SIZE_MAX1 - 1) % SIZE_MAX1) :
    KernelC.readline_loop n stream st = .returned st stream := by
  cases stream with
  | nil => rw [KernelC.readline_loop, if_neg h]
  | cons sc rest => rw [KernelC.readline_loop, if_neg h]

theorem loop_blocked (n : Nat) (st : KernelC.LineReader)
    (h : st.i < (n + SIZE_MAX1 - 1) % SIZE_MAX1) :
    KernelC.readline_loop n [] st = .blocked st := by
  rw [KernelC.readline_loop, if_pos h]

theorem loop_release (n sc : Nat) (rest : List Nat) (st : KernelC.LineReader)
    (h : st.i < (n + SIZE_MAX1 - 1) % SIZE_MAX1) (hsc : sc < 256) (hr : sc &&& 0x80 ≠ 0) :
    KernelC.readline_loop n (sc :: rest) st = KernelC.readline_loop n rest st := by
  rw [KernelC.readline_loop, if_pos h]
  simp only [Nat.mod_eq_of_lt hsc]
  rw [if_pos hr]

theorem loop_newline (n sc : Nat) (rest : List Nat) (st : KernelC.LineReader)
    (h : st.i < (n + SIZE_MAX1 - 1) % SIZE_MAX1) (hsc : sc < 256) (hr : sc &&& 0x80 = 0)
    (hc : KernelC.scancode_to_ascii sc = 10) :
    KernelC.readline_loop n (sc :: rest) st =
      .returned { st.put st.i 0 with term := KernelC.terminal_putchar 10 st.term } rest := by
  rw [KernelC.readline_loop, if_pos h]
  simp only [Nat.mod_eq_of_lt hsc]
  rw [if_neg (by simpa using hr), if_pos hc]
  rfl

theorem loop_backspace (n sc : Nat) (rest : List Nat) (st : KernelC.LineReader)
    (h : st.i < (n + SIZE_MAX1 - 1) % SIZE_MAX1) (hsc : sc < 256) (hr : sc &&& 0x80 = 0)
    (hc : KernelC.scancode_to_ascii sc = 8) (hi : 0 < st.i) :
    KernelC.readline_loop n (sc :: rest) st =
      KernelC.readline_loop n rest
        { st with
          i := st.i - 1
          term := KernelC.terminal_putchar 8
            (KernelC.terminal_putchar 32 (KernelC.terminal_putchar 8 st.term)) } := by
  rw [KernelC.readline_loop, if_pos h]
  simp only [Nat.mod_eq_of_lt hsc]
  have g : st.i > 0 := hi
  rw [if_neg (by simpa using hr), if_neg (by rw [hc]; decide), if_pos ⟨hc, g⟩]

theorem loop_printable (n sc : Nat) (rest : List Nat) (st : KernelC.LineReader)
    (h : st.i < (n + SIZE_MAX1 - 1) % SIZE_MAX1) (hsc : sc < 256) (hr : sc &&& 0x80 = 0)
    (h1 : 32 ≤ KernelC.scancode_to_ascii sc) (h2 : KernelC.scancode_to_ascii sc ≤ 126) :
    KernelC.readline_loop n (sc :: rest) st =
      KernelC.readline_loop n rest
        { st.put st.i (KernelC.scancode_to_ascii sc) with
          i := st.i + 1
          term := KernelC.terminal_putchar (KernelC.scancode_to_ascii sc) st.term } := by
  rw [KernelC.readline_loop, if_pos h]
  simp only [Nat.mod_eq_of_lt hsc]
  have g : KernelC.scancode_to_ascii sc ≥ 32 := h1
  rw [if_neg (by simpa using hr), if_neg (by omega), if_neg (by omega), if_pos ⟨g, h2⟩]
  rfl

theorem loop_ignored (n sc : Nat) (rest : List Nat) (st : KernelC.LineReader)
    (h : st.i < (n + SIZE_MAX1 - 1) % SIZE_MAX1) (hsc : sc < 256) (hr : sc &&& 0x80 = 0)
    (hn : KernelC.scancode_to_ascii sc ≠ 10)
    (hb : ¬ (KernelC.scancode_to_ascii sc = 8 ∧ 0 < st.i))
    (hp : ¬ (32 ≤ KernelC.scancode_to_ascii sc ∧ KernelC.scancode_to_ascii sc ≤ 126)) :
    KernelC.readline_loop n (sc :: rest) st = KernelC.readline_loop n rest st := by
  rw [KernelC.readline_loop, if_pos h]
  simp only [Nat.mod_eq_of_lt hsc]
  rw [if_neg (by simpa using hr), if_neg hn, if_neg hb, if_neg hp]


/-- Induction along a run of the loop of `readline`: a property of (stream, start state, outcome)
that holds for the two ways a run ends and is carried back over each of the four ways an
iteration continues holds for every run on a stream of bytes. -/
theorem loop_induction (n : Nat)
    (P : List Nat → KernelC.LineReader → KernelC.Outcome → Prop)
    (exit : ∀ stream st, ¬ st.i < (n + SIZE_MAX1 - 1) % SIZE_MAX1 →
      P stream st (.returned st stream))
    (blocked : ∀ st, st.i < (n + SIZE_MAX1 - 1) % SIZE_MAX1 → P [] st (.blocked st))
    (release : ∀ sc rest st o, st.i < (n + SIZE_MAX1 - 1) % SIZE_MAX1 → sc < 256 →
      sc &&& 0x80 ≠ 0 → P rest st o → P (sc :: rest) st o)
    (newline : ∀ sc rest st, st.i < (n + SIZE_MAX1 - 1) % SIZE_MAX1 → sc < 256 →
      sc &&& 0x80 = 0 → KernelC.scancode_to_ascii sc = 10 →
      P (sc :: rest) st
        (.returned { st.put st.i 0 with term := KernelC.terminal_putchar 10 st.term } rest))
    (backspace : ∀ sc rest st o, st.i < (n + SIZE_MAX1 - 1) % SIZE_MAX1 → sc < 256 →
      sc &&& 0x80 = 0 → KernelC.scancode_to_ascii sc = 8 → 0 < st.i →
      P rest { st with
          i := st.i - 1
          term := KernelC.terminal_putchar 8
            (KernelC.terminal_putchar 32 (KernelC.terminal_putchar 8 st.term)) } o →
      P (sc :: rest) st o)
    (printable : ∀ sc rest st o, st.i < (n + SIZE_MAX1 - 1) % SIZE_MAX1 → sc < 256 →
      sc &&& 0x80 = 0 → 32 ≤ KernelC.scancode_to_ascii sc →
      KernelC.scancode_to_ascii sc ≤ 126 →
      P rest { st.put st.i (KernelC.scancode_to_ascii sc) with
          i := st.i + 1
          term := KernelC.terminal_putchar (KernelC.scancode_to_ascii sc) st.term } o →
      P (sc :: rest) st o)
    (ignored : ∀ sc rest st o, st.i < (n + SIZE_MAX1 - 1) % SIZE_MAX1 → sc < 256 →
      sc &&& 0x80 = 0 → KernelC.scancode_to_ascii sc ≠ 10 →
      ¬ (KernelC.scancode_to_ascii sc = 8 ∧ 0 < st.i) →
      ¬ (32 ≤ KernelC.scancode_to_ascii sc ∧ KernelC.scancode_to_ascii sc ≤ 126) →
      P rest st o → P (sc :: rest) st o)
    (stream : List Nat) (hall : ∀ sc ∈ stream, sc < 256) (st : KernelC.LineReader) :
    P stream st (KernelC.readline_loop n stream st) := by
  induction stream generalizing st with
  | nil =>
    by_cases h : st.i < (n + SIZE_MAX1 - 1) % SIZE_MAX1
    · rw [loop_blocked n st h]
      exact blocked st h
    · rw [loop_exit n [] st h]
      exact exit [] st h
  | cons sc rest ih =>
    have hsc : sc < 256 := hall sc (List.mem_cons_self _ _)
    have hrest : ∀ x ∈ rest, x < 256 := fun x hx => hall x (List.mem_cons_of_mem _ hx)
    by_cases h : st.i < (n + SIZE_MAX1 - 1) % SIZE_MAX1
    · by_cases hr : sc &&& 0x80 = 0
      · by_cases hn : KernelC.scancode_to_ascii sc = 10
        · rw [loop_newline n sc rest st h hsc hr hn]
          exact newline sc rest st h hsc hr hn
        · by_cases hb : KernelC.scancode_to_ascii sc = 8 ∧ 0 < st.i
          · rw [loop_backspace n sc rest st h hsc hr hb.1 hb.2]
            exact backspace sc rest st _ h hsc hr hb.1 hb.2 (ih hrest _)
          · by_cases hp : 32 ≤ KernelC.scancode_to_ascii sc ∧
                KernelC.scancode_to_ascii sc ≤ 126
            · rw [loop_printable n sc rest st h hsc hr hp.1 hp.2]
              exact printable sc rest st _ h hsc hr hp.1 hp.2 (ih hrest _)
            · rw [loop_ignored n sc rest st h hsc hr hn hb hp]
              exact ignored sc rest st _ h hsc hr hn hb hp (ih hrest _)
      · rw [loop_release n sc rest st h hsc hr]
        exact release sc rest st _ h hsc hr (ih hrest _)
    · rw [loop_exit n (sc :: rest) st h]
      exact exit _ st h


/-! ## The line buffer -/

/-- A run that waits after the scancodes `p` continues from the state it waits in when further
scancodes `q` arrive. -/
theorem loop_append (n : Nat) (p : List Nat) (hp : ∀ sc ∈ p, sc < 256) (q : List Nat)
    (st st' : KernelC.LineReader) (h : KernelC.readline_loop n p st = .blocked st') :
    KernelC.readline_loop n (p ++ q) st = KernelC.readline_loop n q st' := by
  refine loop_induction n
    (fun p st o => ∀ st', o = .blocked st' →
      KernelC.readline_loop n (p ++ q) st = KernelC.readline_loop n q st')
    ?_ ?_ ?_ ?_ ?_ ?_ ?_ p hp st st' h
  · intro stream st _ st' e
    cases e
  · intro st _ st' e
    cases e
    rfl
  · intro sc rest st o hi hsc hr ih st' e
    rw [List.cons_append, loop_release n sc _ st hi hsc hr]
    exact ih st' e
  · intro sc rest st _ _ _ _ st' e
    cases e
  · intro sc rest st o hi hsc hr hc h0 ih st' e
    rw [List.cons_append, loop_backspace n sc _ st hi hsc hr hc h0]
    exact ih st' e
  · intro sc rest st o hi hsc hr h1 h2 ih st' e
    rw [List.cons_append, loop_printable n sc _ st hi hsc hr h1 h2]
    exact ih st' e
  · intro sc rest st o hi hsc hr hn hb hpr ih st' e
    rw [List.cons_append, loop_ignored n sc _ st hi hsc hr hn hb hpr]
    exact ih st' e

theorem put_bufWrites (k v : Nat) (st : KernelC.LineReader) :
    (st.put k v).bufWrites = st.bufWrites ++ [k] := rfl

theorem put_buffer (k v : Nat) (st : KernelC.LineReader) :
    (st.put k v).buffer = st.buffer.set k v := rfl

/-- The loop keeps `i` at or below its limit, stores only below `buffer_size` and keeps the
length of the buffer. -/
theorem loop_bound (n : Nat) (h1 : 1 ≤ n) (h2 : n < 4294967296) (stream : List Nat)
    (hs : ∀ sc ∈ stream, sc < 256) (st : KernelC.LineReader) (hi : st.i ≤ n - 1)
    (hw : ∀ w ∈ st.bufWrites, w < n) :
    (KernelC.readline_loop n stream st).state.i ≤ n - 1 ∧
    (∀ w ∈ (KernelC.readline_loop n stream st).state.bufWrites, w < n) ∧
    (KernelC.readline_loop n stream st).state.buffer.length = st.buffer.length := by
  have lim := limit_eq n h1 h2
  refine loop_induction n
    (fun _ st o => st.i ≤ n - 1 → (∀ w ∈ st.bufWrites, w < n) →
      o.state.i ≤ n - 1 ∧ (∀ w ∈ o.state.bufWrites, w < n) ∧
      o.state.buffer.length = st.buffer.length)
    ?_ ?_ ?_ ?_ ?_ ?_ ?_ stream hs st hi hw
  · intro _ st _ hi hw
    exact ⟨hi, hw, rfl⟩
  · intro st _ hi hw
    exact ⟨hi, hw, rfl⟩
  · intro sc rest st o _ _ _ ih hi hw
    exact ih hi hw
  · intro sc rest st hlt _ _ _ hi hw
    rw [lim] at hlt
    refine ⟨hi, ?_, ?_⟩
    · intro w hm
      show w < n
      have hm' : w ∈ st.bufWrites ++ [st.i] := hm
      rcases List.mem_append.mp hm' with a | a
      · exact hw w a
      · have : w = st.i := by simpa using a
        omega
    · show (st.buffer.set st.i 0).length = st.buffer.length
      exact List.length_set _ _ _
  · intro sc rest st o hlt _ _ _ _ ih hi hw
    exact ih (by show st.i - 1 ≤ n - 1; omega) hw
  · intro sc rest st o hlt _ _ _ _ ih hi hw
    rw [lim] at hlt
    have r := ih (by show st.i + 1 ≤ n - 1; omega) (by
      intro w hm
      have hm' : w ∈ st.bufWrites ++ [st.i] := hm
      rcases List.mem_append.mp hm' with a | a
      · exact hw w a
      · have : w = st.i := by simpa using a
        omega)
    refine ⟨r.1, r.2.1, r.2.2.trans ?_⟩
    show (st.buffer.set st.i _).length = st.buffer.length
    exact List.length_set _ _ _
  · intro sc rest st o _ _ _ _ _ _ ih hi hw
    exact ih hi hw

/-- A string with a zero byte at index `k` has a length, which is at most `k`, and the byte at
that length is the terminator. -/
theorem strlen_le_of_nul (l : List Nat) (k : Nat) (h : l[k]? = some 0) :
    ∃ m, strlen l = some m ∧ m ≤ k ∧ l[m]? = some 0 := by
  induction l generalizing k with
  | nil => simp at h
  | cons c cs ih =>
    by_cases hc : c = 0
    · subst hc
      exact ⟨0, by simp [strlen], Nat.zero_le _, by simp⟩
    · cases k with
      | zero =>
        simp at h
        exact absurd h hc
      | succ k =>
        have h' : cs[k]? = some 0 := by simpa using h
        obtain ⟨m, e, le, z⟩ := ih k h'
        exact ⟨m + 1, by simp [strlen, hc, e], by omega, by simpa using z⟩

theorem readline_returned (buffer : List Nat) (n : Nat) (stream : List Nat) (t : Display)
    (st : KernelC.LineReader) (rest : List Nat)
    (h : KernelC.readline buffer n stream t = .returned st rest) :
    ∃ st0, KernelC.readline_loop n stream
        { buffer := buffer, i := 0, term := t, bufWrites := [] } = .returned st0 rest ∧
      st = st0.put ((n + SIZE_MAX1 - 1) % SIZE_MAX1) 0 := by
  unfold KernelC.readline at h
  split at h
  · rename_i st0 rest0 e
    cases h
    exact ⟨st0, e, rfl⟩
  · cases h

theorem readline_state (buffer : List Nat) (n : Nat) (stream : List Nat) (t : Display) :
    (KernelC.readline buffer n stream t).state =
      match KernelC.readline_loop n stream
        { buffer := buffer, i := 0, term := t, bufWrites := [] } with
      | .returned st0 _ => st0.put ((n + SIZE_MAX1 - 1) % SIZE_MAX1) 0
      | .blocked st0 => st0 := by
  unfold KernelC.readline
  split <;> rfl

/-- C2. For a buffer of at least `buffer_size >= 1` bytes and every stream of scancodes,
`readline` stores to the buffer only at indices below `buffer_size` and its length `i` is at most
`buffer_size - 1`, in the state in which the run ends and in every state in which it waits for a
further scancode; when it returns, the byte at index `buffer_size - 1` is zero, so the line in the
buffer has a length, at most `buffer_size - 1`, with the terminator at that index. -/
theorem line_buffer_bound (buffer : List Nat) (buffer_size : Nat) (stream : List Nat)
    (t : Display) (h1 : 1 ≤ buffer_size) (h2 : buffer_size < 4294967296)
    (hb : buffer_size ≤ buffer.length) (hs : ∀ sc ∈ stream, sc < 256) :
    (∀ w ∈ (KernelC.readline buffer buffer_size stream t).state.bufWrites, w < buffer_size) ∧
    (KernelC.readline buffer buffer_size stream t).state.i ≤ buffer_size - 1 ∧
    (∀ p q st', stream = p ++ q →
      KernelC.readline_loop buffer_size p
        { buffer := buffer, i := 0, term := t, bufWrites := [] } = .blocked st' →
      KernelC.readline_loop buffer_size stream
        { buffer := buffer, i := 0, term := t, bufWrites := [] } =
        KernelC.readline_loop buffer_size q st' ∧
      st'.i ≤ buffer_size - 1 ∧ ∀ w ∈ st'.bufWrites, w < buffer_size) ∧
    (∀ st rest, KernelC.readline buffer buffer_size stream t = .returned st rest →
      st.buffer[buffer_size - 1]? = some 0 ∧
      ∃ m, strlen st.buffer = some m ∧ m ≤ buffer_size - 1 ∧ st.buffer[m]? = some 0) := by
  have lim := limit_eq buffer_size h1 h2
  have base := fun (s : List Nat) (hs : ∀ sc ∈ s, sc < 256) =>
    loop_bound buffer_size h1 h2 s hs
      { buffer := buffer, i := 0, term := t, bufWrites := [] } (Nat.zero_le _)
      (by intro w hw; simp at hw)
  have b := base stream hs
  refine ⟨?_, ?_, ?_, ?_⟩
  · rw [readline_state]
    split
    · rename_i st0 rest0 e
      rw [e] at b
      intro w hm
      rw [put_bufWrites, lim] at hm
      rcases List.mem_append.mp hm with a | a
      · exact b.2.1 w a
      · have : w = buffer_size - 1 := by simpa using a
        omega
    · rename_i st0 e
      rw [e] at b
      exact b.2.1
  · rw [readline_state]
    split
    · rename_i st0 rest0 e
      rw [e] at b
      exact b.1
    · rename_i st0 e
      rw [e] at b
      exact b.1
  · intro p q st' e hp
    have hpb : ∀ sc ∈ p, sc < 256 := fun sc hm => hs sc (by rw [e]; exact List.mem_append_left _ hm)
    have bp := base p hpb
    rw [hp] at bp
    exact ⟨by rw [e]; exact loop_append buffer_size p hpb q _ st' hp, bp.1, bp.2.1⟩
  · intro st rest e
    obtain ⟨st0, e0, rfl⟩ := readline_returned buffer buffer_size stream t st rest e
    rw [e0] at b
    have len : buffer_size - 1 < st0.buffer.length := by
      have := b.2.2
      have l0 : st0.buffer.length = buffer.length := this
      omega
    have z : (st0.put ((buffer_size + SIZE_MAX1 - 1) % SIZE_MAX1) 0).buffer[buffer_size - 1]? =
        some 0 := by
      rw [lim, put_buffer, List.getElem?_set_self len]
    exact ⟨z, strlen_le_of_nul _ _ z⟩

theorem line_buffer_bound_witness :
    (KernelC.readline [7, 7, 7, 7] 4 [30, 158, 48, 46, 28] sampleDisplay).state.i ≤ 4 - 1 :=
  (line_buffer_bound [7, 7, 7, 7] 4 [30, 158, 48, 46, 28] sampleDisplay (by decide) (by decide)
    (by decide) (by decide)).2.1


/-! ## When `readline` returns -/

/-- A run that starts below the limit and returns has consumed at least one scancode, and the last
one it consumed is a newline press or the printable press that filled the buffer. -/
theorem loop_last_consumed (n : Nat) (stream : List Nat) (hs : ∀ sc ∈ stream, sc < 256)
    (st : KernelC.LineReader) (hi : st.i < (n + SIZE_MAX1 - 1) % SIZE_MAX1)
    (st' : KernelC.LineReader) (rest : List Nat)
    (h : KernelC.readline_loop n stream st = .returned st' rest) :
    ∃ consumed last, stream = consumed ++ last :: rest ∧ last &&& 0x80 = 0 ∧
      (KernelC.scancode_to_ascii last = 10 ∨
        (32 ≤ KernelC.scancode_to_ascii last ∧ KernelC.scancode_to_ascii last ≤ 126 ∧
          st'.i = (n + SIZE_MAX1 - 1) % SIZE_MAX1)) := by
  refine loop_induction n
    (fun stream st o => o = KernelC.readline_loop n stream st →
      st.i < (n + SIZE_MAX1 - 1) % SIZE_MAX1 → ∀ st' rest, o = .returned st' rest →
      ∃ consumed last, stream = consumed ++ last :: rest ∧ last &&& 0x80 = 0 ∧
        (KernelC.scancode_to_ascii last = 10 ∨
          (32 ≤ KernelC.scancode_to_ascii last ∧ KernelC.scancode_to_ascii last ≤ 126 ∧
            st'.i = (n + SIZE_MAX1 - 1) % SIZE_MAX1)))
    ?_ ?_ ?_ ?_ ?_ ?_ ?_ stream hs st rfl hi st' rest h
  · intro _ st hn _ hi
    exact absurd hi hn
  · intro st _ _ _ st' rest e
    cases e
  · intro sc tl st o hlt hsc hr ih eo hi st' rest e
    rw [loop_release n sc tl st hlt hsc hr] at eo
    obtain ⟨consumed, last, e1, e2⟩ := ih eo hi st' rest e
    exact ⟨sc :: consumed, last, by rw [e1]; rfl, e2⟩
  · intro sc tl st _ _ hr hc _ _ st' rest e
    cases e
    exact ⟨[], sc, rfl, hr, Or.inl hc⟩
  · intro sc tl st o hlt hsc hr hc h0 ih eo hi st' rest e
    rw [loop_backspace n sc tl st hlt hsc hr hc h0] at eo
    obtain ⟨consumed, last, e1, e2⟩ := ih eo (by show st.i - 1 < _; omega) st' rest e
    exact ⟨sc :: consumed, last, by rw [e1]; rfl, e2⟩
  · intro sc tl st o hlt hsc hr p1 p2 ih eo hi st' rest e
    rw [loop_printable n sc tl st hlt hsc hr p1 p2] at eo
    by_cases full : st.i + 1 < (n + SIZE_MAX1 - 1) % SIZE_MAX1
    · obtain ⟨consumed, last, e1, e2⟩ := ih eo full st' rest e
      exact ⟨sc :: consumed, last, by rw [e1]; rfl, e2⟩
    · rw [loop_exit n tl _ full, e] at eo
      cases eo
      refine ⟨[], sc, rfl, hr, Or.inr ⟨p1, p2, ?_⟩⟩
      show st.i + 1 = _
      omega
  · intro sc tl st o hlt hsc hr hn hb hp ih eo hi st' rest e
    rw [loop_ignored n sc tl st hlt hsc hr hn hb hp] at eo
    obtain ⟨consumed, last, e1, e2⟩ := ih eo hi st' rest e
    exact ⟨sc :: consumed, last, by rw [e1]; rfl, e2⟩

/-- C7, counterexample. With `buffer_size = 2` the single press of the key `a` (scancode 30) fills
the buffer and `readline` returns, having read no newline. -/
theorem readline_returns_on_full_buffer :
    (KernelC.readline [7, 7] 2 [30] sampleDisplay).unread = some [] ∧
      (KernelC.readline [7, 7] 2 [30] sampleDisplay).state.buffer = [97, 0] ∧
      KernelC.scancode_to_ascii 30 = 97 ∧ KernelC.scancode_to_ascii 30 ≠ 10 := by
  decide

/-- C7, as amended. For `buffer_size >= 2`, a returning call of `readline` has consumed at least
one scancode and the last one it consumed is a press that decodes to newline or a printable press
that brought the length to `buffer_size - 1`; once the length is `buffer_size - 1` the loop
returns at once, reading no further scancode. -/
theorem readline_return_condition (buffer : List Nat) (buffer_size : Nat) (stream : List Nat)
    (t : Display) (h1 : 2 ≤ buffer_size) (h2 : buffer_size < 4294967296)
    (hs : ∀ sc ∈ stream, sc < 256) :
    (∀ st rest, KernelC.readline buffer buffer_size stream t = .returned st rest →
      ∃ consumed last, stream = consumed ++ last :: rest ∧ last &&& 0x80 = 0 ∧
        (KernelC.scancode_to_ascii last = 10 ∨
          (32 ≤ KernelC.scancode_to_ascii last ∧ KernelC.scancode_to_ascii last ≤ 126 ∧
            st.i = buffer_size - 1))) ∧
    (∀ (st : KernelC.LineReader) (s : List Nat), st.i = buffer_size - 1 →
      KernelC.readline_loop buffer_size s st = .returned st s) := by
  have lim := limit_eq buffer_size (by omega) h2
  constructor
  · intro st rest e
    obtain ⟨st0, e0, rfl⟩ := readline_returned buffer buffer_size stream t st rest e
    have r := loop_last_consumed buffer_size stream hs _ (by rw [lim]; show 0 < _; omega)
      st0 rest e0
    rw [lim] at r
    exact r
  · intro st s e
    exact loop_exit buffer_size s st (by rw [lim]; omega)

theorem readline_return_condition_witness :
    KernelC.readline_loop 4 [28]
        { buffer := [97, 98, 99, 7], i := 3, term := sampleDisplay, bufWrites := [0, 1, 2] } =
      .returned
        { buffer := [97, 98, 99, 7], i := 3, term := sampleDisplay, bufWrites := [0, 1, 2] }
        [28] :=
  (readline_return_condition [7, 7, 7, 7] 4 [30, 28] sampleDisplay (by decide) (by decide)
    (by decide)).2 _ [28] rfl


/-! ## The content of the line -/

theorem take_set_self (l : List Nat) (i a : Nat) : (l.set i a).take i = l.take i := by
  rw [List.set_take]
  apply List.set_eq_of_length_le
  rw [List.length_take]
  exact Nat.min_le_left _ _

theorem take_succ_set (l : List Nat) (i a : Nat) (h : i < l.length) :
    (l.set i a).take (i + 1) = l.take i ++ [a] := by
  rw [List.take_succ, take_set_self, List.getElem?_set_self h]
  rfl

theorem spec_edit_release (text : List Nat) (sc : Nat) (h : sc &&& 0x80 ≠ 0) :
    spec_edit text sc = text := by
  unfold spec_edit
  rw [if_neg h]

theorem spec_edit_printable (text : List Nat) (sc : Nat) (h : sc &&& 0x80 = 0)
    (h1 : 32 ≤ KernelC.scancode_to_ascii sc) (h2 : KernelC.scancode_to_ascii sc ≤ 126) :
    spec_edit text sc = text ++ [KernelC.scancode_to_ascii sc] := by
  unfold spec_edit
  rw [if_pos h, if_pos ⟨h1, h2⟩]

theorem spec_edit_backspace (text : List Nat) (sc : Nat) (h : sc &&& 0x80 = 0)
    (hc : KernelC.scancode_to_ascii sc = 8) : spec_edit text sc = text.dropLast := by
  unfold spec_edit
  rw [if_pos h, if_neg (by rw [hc]; decide), if_pos hc]

theorem spec_edit_other (text : List Nat) (sc : Nat) (h : sc &&& 0x80 = 0)
    (hp : ¬ (32 ≤ KernelC.scancode_to_ascii sc ∧ KernelC.scancode_to_ascii sc ≤ 126))
    (hc : KernelC.scancode_to_ascii sc ≠ 8) : spec_edit text sc = text := by
  unfold spec_edit
  rw [if_pos h, if_neg hp, if_neg hc]

/-- Every byte of an edited text is printable if every byte of the text it started from is. -/
theorem spec_fold_printable (pre : List Nat) (text : List Nat)
    (h : ∀ b ∈ text, 0x20 ≤ b ∧ b ≤ 0x7E) :
    ∀ b ∈ pre.foldl spec_edit text, 0x20 ≤ b ∧ b ≤ 0x7E := by
  induction pre generalizing text with
  | nil => exact h
  | cons sc tl ih =>
    apply ih
    intro b hb
    unfold spec_edit at hb
    split_ifs at hb with a1 a2 a3
    · rcases List.mem_append.mp hb with m | m
      · exact h b m
      · have : b = KernelC.scancode_to_ascii sc := by simpa using m
        rw [this]
        exact a2
    · exact h b (List.mem_of_mem_dropLast hb)
    · exact h b hb
    · exact h b hb

/-- The loop of `readline`, started with the text `text` in the buffer, on scancodes `pre` that
contain no newline press and never fill the buffer, followed by a newline press: it returns at
that press with the edited text in the buffer, followed by a terminator. -/
theorem loop_content (n : Nat) (enter : Nat) (rest : List Nat) (he : enter < 256)
    (hpress : enter &&& 0x80 = 0) (hdec : KernelC.scancode_to_ascii enter = 10)
    (pre : List Nat) (hs : ∀ sc ∈ pre, sc < 256)
    (hno : ∀ sc ∈ pre, ¬ (sc &&& 0x80 = 0 ∧ KernelC.scancode_to_ascii sc = 10))
    (st : KernelC.LineReader) (text : List Nat) (hi : st.i = text.length)
    (ht : st.buffer.take st.i = text)
    (hroom : ∀ p, p <+: pre →
      (p.foldl spec_edit text).length < (n + SIZE_MAX1 - 1) % SIZE_MAX1)
    (hlen : (n + SIZE_MAX1 - 1) % SIZE_MAX1 < st.buffer.length) :
    ∃ st', KernelC.readline_loop n (pre ++ enter :: rest) st = .returned st' rest ∧
      st'.buffer.take (pre.foldl spec_edit text).length = pre.foldl spec_edit text ∧
      st'.buffer[(pre.foldl spec_edit text).length]? = some 0 ∧
      st'.buffer.length = st.buffer.length := by
  induction pre generalizing st text with
  | nil =>
    have lt : st.i < (n + SIZE_MAX1 - 1) % SIZE_MAX1 := by
      have := hroom [] (List.prefix_refl _)
      rw [hi]
      exact this
    refine ⟨_, loop_newline n enter rest st lt he hpress hdec, ?_, ?_, ?_⟩
    · show (st.buffer.set st.i 0).take text.length = text
      rw [← hi, take_set_self, ht]
    · show (st.buffer.set st.i 0)[text.length]? = some 0
      rw [← hi, List.getElem?_set_self (by omega)]
    · show (st.buffer.set st.i 0).length = st.buffer.length
      exact List.length_set _ _ _
  | cons sc tl ih =>
    have lt : st.i < (n + SIZE_MAX1 - 1) % SIZE_MAX1 := by
      have := hroom [] (List.nil_prefix)
      rw [hi]
      exact this
    have hsc : sc < 256 := hs sc (List.mem_cons_self _ _)
    have hs' : ∀ x ∈ tl, x < 256 := fun x hx => hs x (List.mem_cons_of_mem _ hx)
    have hno' : ∀ x ∈ tl, ¬ (x &&& 0x80 = 0 ∧ KernelC.scancode_to_ascii x = 10) :=
      fun x hx => hno x (List.mem_cons_of_mem _ hx)
    have hroom' : ∀ p, p <+: tl →
        (p.foldl spec_edit (spec_edit text sc)).length < (n + SIZE_MAX1 - 1) % SIZE_MAX1 :=
      fun p hp => hroom (sc :: p) ((List.prefix_cons_inj sc).mpr hp)
    rw [List.cons_append, List.foldl_cons]
    by_cases hr : sc &&& 0x80 = 0
    · have hn : KernelC.scancode_to_ascii sc ≠ 10 := fun e =>
        hno sc (List.mem_cons_self _ _) ⟨hr, e⟩
      by_cases hb : KernelC.scancode_to_ascii sc = 8 ∧ 0 < st.i
      · rw [loop_backspace n sc _ st lt hsc hr hb.1 hb.2]
        have e := spec_edit_backspace text sc hr hb.1
        exact ih hs' hno' _ (spec_edit text sc)
          (by show st.i - 1 = _; rw [e, List.length_dropLast, hi])
          (by
            show st.buffer.take (st.i - 1) = _
            rw [e, List.dropLast_eq_take, ← ht, List.take_take, List.length_take]
            congr 1
            omega)
          hroom' hlen
      · by_cases hp : 32 ≤ KernelC.scancode_to_ascii sc ∧ KernelC.scancode_to_ascii sc ≤ 126
        · rw [loop_printable n sc _ st lt hsc hr hp.1 hp.2]
          have e := spec_edit_printable text sc hr hp.1 hp.2
          obtain ⟨st', r1, r2, r3, r4⟩ := ih hs' hno'
            { st.put st.i (KernelC.scancode_to_ascii sc) with
              i := st.i + 1
              term := KernelC.terminal_putchar (KernelC.scancode_to_ascii sc) st.term }
            (spec_edit text sc)
            (by show st.i + 1 = _; rw [e, List.length_append, hi]; rfl)
            (by
              show (st.buffer.set st.i _).take (st.i + 1) = _
              rw [e, take_succ_set _ _ _ (by omega), ht])
            hroom'
            (by
              show _ < (st.buffer.set st.i _).length
              rw [List.length_set]
              exact hlen)
          refine ⟨st', r1, r2, r3, r4.trans ?_⟩
          show (st.buffer.set st.i _).length = st.buffer.length
          exact List.length_set _ _ _
        · rw [loop_ignored n sc _ st lt hsc hr hn hb hp]
          have e : spec_edit text sc = text := by
            by_cases c8 : KernelC.scancode_to_ascii sc = 8
            · have i0 : st.i = 0 := by
                by_contra ne
                exact hb ⟨c8, Nat.pos_of_ne_zero ne⟩
              have tn : text = [] := List.eq_nil_of_length_eq_zero (by rw [← hi, i0])
              rw [spec_edit_backspace text sc hr c8, tn]
              rfl
            · exact spec_edit_other text sc hr hp c8
          exact ih hs' hno' st (spec_edit text sc) (by rw [e]; exact hi) (by rw [e]; exact ht)
            hroom' hlen
    · rw [loop_release n sc _ st lt hsc hr]
      have e := spec_edit_release text sc hr
      exact ih hs' hno' st (spec_edit text sc) (by rw [e]; exact hi) (by rw [e]; exact ht)
        hroom' hlen


theorem split_at_index (l : List Nat) (k a : Nat) (h : l[k]? = some a) :
    l = l.take k ++ a :: l.drop (k + 1) := by
  obtain ⟨hk, e⟩ := List.getElem?_eq_some.mp h
  have d := List.drop_eq_getElem_cons hk
  rw [e] at d
  rw [← d, List.take_append_drop]

/-- C6. When a newline press arrives after scancodes `pre` that contain no newline press and whose
edited text stays shorter than `buffer_size - 1` throughout, `readline` returns at that press, the
NUL-terminated line in the buffer is the text obtained by folding `pre` from the empty text with
the editing rule of the specification, and every byte of it is printable ASCII. -/
theorem line_content (buffer : List Nat) (buffer_size : Nat) (pre : List Nat) (enter : Nat)
    (rest : List Nat) (t : Display) (h1 : 1 ≤ buffer_size) (h2 : buffer_size < 4294967296)
    (hb : buffer_size ≤ buffer.length) (hs : ∀ sc ∈ pre, sc < 256) (he : enter < 256)
    (hpress : enter &&& 0x80 = 0) (hdec : KernelC.scancode_to_ascii enter = 10)
    (hno : ∀ sc ∈ pre, ¬ (sc &&& 0x80 = 0 ∧ KernelC.scancode_to_ascii sc = 10))
    (hroom : ∀ k, k ≤ pre.length → (spec_line (pre.take k)).length < buffer_size - 1) :
    (KernelC.readline buffer buffer_size (pre ++ enter :: rest) t).unread = some rest ∧
    (KernelC.readline buffer buffer_size (pre ++ enter :: rest) t).state.buffer.takeWhile
      (fun c => c ≠ 0) = spec_line pre ∧
    strlen (KernelC.readline buffer buffer_size (pre ++ enter :: rest) t).state.buffer =
      some (spec_line pre).length ∧
    ∀ b ∈ spec_line pre, 0x20 ≤ b ∧ b ≤ 0x7E := by
  have lim := limit_eq buffer_size h1 h2
  have pr : ∀ b ∈ spec_line pre, 0x20 ≤ b ∧ b ≤ 0x7E :=
    spec_fold_printable pre [] (by intro b hb; simp at hb)
  have room : ∀ p, p <+: pre →
      (p.foldl spec_edit []).length < (buffer_size + SIZE_MAX1 - 1) % SIZE_MAX1 := by
    intro p hp
    rw [lim, List.prefix_iff_eq_take.mp hp]
    exact hroom p.length hp.length_le
  obtain ⟨st', r1, r2, r3, r4⟩ := loop_content buffer_size enter rest he hpress hdec pre hs hno
    { buffer := buffer, i := 0, term := t, bufWrites := [] } [] rfl rfl room
    (by rw [lim]; show buffer_size - 1 < buffer.length; omega)
  have fin : KernelC.readline buffer buffer_size (pre ++ enter :: rest) t =
      .returned (st'.put ((buffer_size + SIZE_MAX1 - 1) % SIZE_MAX1) 0) rest := by
    unfold KernelC.readline
    rw [r1]
  have short : (spec_line pre).length < buffer_size - 1 := by
    have := hroom pre.length (le_refl _)
    rw [List.take_length] at this
    exact this
  have b1 : (st'.buffer.set (buffer_size - 1) 0).take (spec_line pre).length = spec_line pre := by
    rw [List.take_set_of_lt _ _ short]
    exact r2
  have b2 : (st'.buffer.set (buffer_size - 1) 0)[(spec_line pre).length]? = some 0 := by
    rw [List.getElem?_set_ne (by omega)]
    exact r3
  have dec := split_at_index _ _ _ b2
  rw [b1] at dec
  have nz : 0 ∉ spec_line pre := fun m => by
    have := (pr 0 m).1
    omega
  rw [fin, lim]
  refine ⟨rfl, ?_, ?_, pr⟩
  · show (st'.buffer.set (buffer_size - 1) 0).takeWhile (fun c => c ≠ 0) = spec_line pre
    rw [dec]
    exact takeWhile_terminated _ _ nz
  · show strlen (st'.buffer.set (buffer_size - 1) 0) = some (spec_line pre).length
    rw [dec]
    exact strlen_terminated _ _ nz

theorem line_content_witness :
    (KernelC.readline [7, 7, 7, 7, 7, 7, 7, 7] 8 ([35, 163, 24, 14, 23] ++ 28 :: [5])
        sampleDisplay).state.buffer.takeWhile (fun c => c ≠ 0) = [104, 105] :=
  (line_content [7, 7, 7, 7, 7, 7, 7, 7] 8 [35, 163, 24, 14, 23] 28 [5] sampleDisplay
    (by decide) (by decide) (by decide) (by decide) (by decide) (by decide) (by decide)
    (by decide) (by decide)).2.1


/-! ## The command dispatcher -/

/-- Comparing a buffer that holds `name` followed by a terminator with a literal: `strcmp`
returns, and returns 0 exactly when `name` is the literal. -/
theorem strcmp_literal (name tail lit : List Nat) (h0 : 0 ∉ name) (hb : ∀ b ∈ name, b < 256)
    (l0 : 0 ∉ lit) (lb : ∀ b ∈ lit, b < 256) :
    ∃ d, KernelC.strcmp (name ++ 0 :: tail) (lit ++ [0]) = some d ∧ (d = 0 ↔ name = lit) := by
  induction name generalizing lit with
  | nil =>
    cases lit with
    | nil => exact ⟨0, by simp [KernelC.strcmp], by simp⟩
    | cons b l' =>
      have b0 : b ≠ 0 := fun e => l0 (by simp [e])
      have bl : b < 256 := lb b (List.mem_cons_self _ _)
      refine ⟨(0 % 256 : Int) - (b % 256 : Int), by simp [KernelC.strcmp], ?_⟩
      constructor
      · intro e
        omega
      · intro e
        cases e
  | cons a n' ih =>
    have a0 : a ≠ 0 := fun e => h0 (by simp [e])
    have al : a < 256 := hb a (List.mem_cons_self _ _)
    have h0' : 0 ∉ n' := fun e => h0 (List.mem_cons_of_mem _ e)
    have hb' : ∀ b ∈ n', b < 256 := fun b m => hb b (List.mem_cons_of_mem _ m)
    cases lit with
    | nil =>
      refine ⟨(a % 256 : Int) - (0 % 256 : Int), by simp [KernelC.strcmp, a0], ?_⟩
      constructor
      · intro e
        omega
      · intro e
        cases e
    | cons b l' =>
      have bl : b < 256 := lb b (List.mem_cons_self _ _)
      have l0' : 0 ∉ l' := fun e => l0 (List.mem_cons_of_mem _ e)
      have lb' : ∀ x ∈ l', x < 256 := fun x m => lb x (List.mem_cons_of_mem _ m)
      by_cases ab : a = b
      · subst ab
        obtain ⟨d, e, i⟩ := ih l' h0' hb' l0' lb'
        refine ⟨d, by simp [KernelC.strcmp, a0, e], ?_⟩
        rw [i]
        simp
      · refine ⟨(a % 256 : Int) - (b % 256 : Int), by simp [KernelC.strcmp, a0, ab], ?_⟩
        constructor
        · intro e
          omega
        · intro e
          exact absurd (List.cons.inj e).1 ab

theorem skip_word_eq (name tail : List Nat) (c : Nat) (h0 : 0 ∉ name) (h32 : 32 ∉ name)
    (hc : c = 0 ∨ c = 32) : KernelC.skip_word (name ++ c :: tail) = some name.length := by
  induction name with
  | nil =>
    rcases hc with e | e <;> simp [KernelC.skip_word, e]
  | cons a n' ih =>
    have a0 : a ≠ 0 := fun e => h0 (by simp [e])
    have a32 : a ≠ 32 := fun e => h32 (by simp [e])
    have r := ih (fun e => h0 (List.mem_cons_of_mem _ e)) (fun e => h32 (List.mem_cons_of_mem _ e))
    simp [KernelC.skip_word, a0, a32, r]

/-- The dispatch of `execute_command` once the command word has been cut off. -/
theorem execute_command_eq (cmd : List Nat) (t : Display) (j c : Nat)
    (h1 : KernelC.skip_word cmd = some j) (h2 : cmd[j]? = some c) (d1 d2 d3 : Int)
    (e1 : KernelC.strcmp (if c = 32 then cmd.set j 0 else cmd) (cstr "help") = some d1)
    (e2 : KernelC.strcmp (if c = 32 then cmd.set j 0 else cmd) (cstr "clear") = some d2)
    (e3 : KernelC.strcmp (if c = 32 then cmd.set j 0 else cmd) (cstr "color") = some d3) :
    KernelC.execute_command cmd t =
      (if d1 = 0 then KernelC.cmd_help t
       else if d2 = 0 then some (KernelC.cmd_clear t)
       else if d3 = 0 then
         KernelC.cmd_color ((if c = 32 then cmd.set j 0 else cmd).drop
           (if c = 32 then j + 1 else j)) t
       else KernelC.terminal_writestring
         (cstr "Unknown command. Type \x27help\x27 for a list of commands.\n") t).map
        (fun t' => (if c = 32 then cmd.set j 0 else cmd, t')) := by
  unfold KernelC.execute_command
  simp only [h1, Option.bind_eq_bind, Option.some_bind, h2, e1, e2, e3]
  have key : ∀ (o : Option Display) (a : List Nat),
      (o.bind fun t => pure (a, t)) = Option.map (fun t' => (a, t')) o := by
    intro o a
    cases o <;> rfl
  split_ifs <;> first | exact key _ _ | rfl


theorem command_name_no_space (line : List Nat) : 32 ∉ command_name line := by
  intro h
  have := List.mem_takeWhile_imp h
  simp at this

theorem command_name_subset (line : List Nat) (b : Nat) (h : b ∈ command_name line) :
    b ∈ line :=
  (List.takeWhile_prefix _).subset h

/-- A line is its command name, alone or followed by a space and the argument. -/
theorem line_split (line : List Nat) :
    (32 ∉ line ∧ command_name line = line ∧ command_arg line = []) ∨
    (32 ∈ line ∧ line = command_name line ++ 32 :: command_arg line) := by
  induction line with
  | nil => exact Or.inl ⟨by simp, rfl, rfl⟩
  | cons a l ih =>
    by_cases ha : a = 32
    · subst ha
      exact Or.inr ⟨by simp, by simp [command_name, command_arg]⟩
    · have pa : (fun c => decide (c ≠ 32)) a = true := decide_eq_true ha
      have e1 : command_name (a :: l) = a :: command_name l :=
        List.takeWhile_cons_of_pos pa
      have e2 : command_arg (a :: l) = command_arg l := by
        unfold command_arg
        exact congrArg (List.drop 1)
          (List.dropWhile_cons_of_pos (p := fun c => decide (c ≠ 32)) (l := l) pa)
      rcases ih with ⟨h1, h2, h3⟩ | ⟨h1, h2⟩
      · left
        refine ⟨?_, by rw [e1, h2], by rw [e2, h3]⟩
        intro m
        rcases List.mem_cons.mp m with e | e
        · exact ha e.symm
        · exact h1 e
      · right
        refine ⟨List.mem_cons_of_mem _ h1, ?_⟩
        rw [e1, e2, List.cons_append, ← h2]

theorem set_at_length (name tail : List Nat) (c v : Nat) :
    (name ++ c :: tail).set name.length v = name ++ v :: tail := by
  induction name with
  | nil => rfl
  | cons a n ih => simp [ih]

theorem getElem?_at_length (name tail : List Nat) (c : Nat) :
    (name ++ c :: tail)[name.length]? = some c := by
  induction name with
  | nil => simp
  | cons a n ih => simpa using ih

theorem drop_past_length (name tail : List Nat) (c : Nat) :
    (name ++ c :: tail).drop (name.length + 1) = tail := by
  induction name with
  | nil => rfl
  | cons a n ih => simp

theorem drop_at_length (name tail : List Nat) :
    (name ++ tail).drop name.length = tail := by
  simp

/-- The color is the same after a character output of `kernel.c`, from any state. -/
theorem kernel_putchar_color (c : Nat) (t : Display) :
    (KernelC.terminal_putchar c t).terminal_color = t.terminal_color := by
  unfold KernelC.terminal_putchar
  simp only []
  rw [update_cursor_color]
  split_ifs
  · exact (terminal_scroll_sameCursor _).2.2.1
  · rfl
  · exact (terminal_scroll_sameCursor _).2.2.1
  · rfl
  · rfl

theorem kernel_fold_color (l : List Nat) (t : Display) :
    (l.foldl (fun s c => KernelC.terminal_putchar c s) t).terminal_color = t.terminal_color := by
  induction l generalizing t with
  | nil => rfl
  | cons c cs ih =>
    rw [List.foldl_cons, ih, kernel_putchar_color]

/-- The function `terminal_writestring` of `kernel.c` on a terminated string: it writes the
characters before the terminator. -/
theorem kernel_writestring_eq (data : List Nat) (h : 0 ∈ data) (t : Display) :
    KernelC.terminal_writestring data t =
      some ((data.takeWhile (fun c => c ≠ 0)).foldl
        (fun s c => KernelC.terminal_putchar c s) t) :=
  writestring_eq KernelC.terminal_putchar data h t

theorem kernel_writestring_color (data : List Nat) (h : 0 ∈ data) (t : Display) :
    ∃ t', KernelC.terminal_writestring data t = some t' ∧
      t'.terminal_color = t.terminal_color :=
  ⟨_, kernel_writestring_eq data h t, kernel_fold_color _ t⟩


/-- The command buffer after `execute_command`: the first space, if any, has been overwritten by
a terminator. -/
theorem execute_command_split (line rest : List Nat) (h0 : 0 ∉ line) :
    ∃ c tail, line ++ 0 :: rest = command_name line ++ c :: tail ∧
      KernelC.skip_word (line ++ 0 :: rest) = some (command_name line).length ∧
      (line ++ 0 :: rest)[(command_name line).length]? = some c ∧
      (c = 32 ↔ 32 ∈ line) ∧
      (if c = 32 then (line ++ 0 :: rest).set (command_name line).length 0
        else line ++ 0 :: rest) = command_name line ++ 0 :: tail ∧
      (if c = 32 then (line ++ 0 :: rest).set (command_name line).length 0
        else line ++ 0 :: rest).drop
          (if c = 32 then (command_name line).length + 1 else (command_name line).length) =
        command_arg line ++ 0 :: rest := by
  have n0 : 0 ∉ command_name line := fun m => h0 (command_name_subset line 0 m)
  have n32 := command_name_no_space line
  rcases line_split line with ⟨h1, h2, h3⟩ | ⟨h1, h2⟩
  · refine ⟨0, rest, by rw [h2], ?_, ?_, ?_, ?_, ?_⟩
    · rw [h2]
      exact skip_word_eq line rest 0 h0 h1 (Or.inl rfl)
    · rw [h2]
      exact getElem?_at_length line rest 0
    · constructor
      · intro e
        cases e
      · intro m
        exact absurd m h1
    · rw [if_neg (by decide), h2]
    · rw [if_neg (by decide), if_neg (by decide), h2, h3]
      exact drop_at_length line _
  · have e : line ++ 0 :: rest =
        command_name line ++ 32 :: (command_arg line ++ 0 :: rest) := by
      conv => lhs; rw [h2]
      simp
    refine ⟨32, command_arg line ++ 0 :: rest, e, ?_, ?_, ?_, ?_, ?_⟩
    · rw [e]
      exact skip_word_eq _ _ 32 n0 n32 (Or.inr rfl)
    · rw [e]
      exact getElem?_at_length _ _ 32
    · exact ⟨fun _ => h1, fun _ => rfl⟩
    · rw [if_pos rfl, e]
      exact set_at_length _ _ 32 0
    · rw [if_pos rfl, if_pos rfl, e, set_at_length]
      exact drop_past_length _ _ 0

/-- The effect of `execute_command` on a terminated line, by the command name. -/
theorem execute_command_cases (line rest : List Nat) (t : Display) (h0 : 0 ∉ line)
    (hb : ∀ b ∈ line, b < 256) :
    KernelC.execute_command (line ++ 0 :: rest) t =
      (if command_name line = ascii "help" then KernelC.cmd_help t
       else if command_name line = ascii "clear" then some ( terminal_initialize t)
       else if command_name line = ascii "color" then
         KernelC.cmd_color (command_arg line ++ 0 :: rest) t
       else KernelC.terminal_writestring
         (cstr "Unknown command. Type \x27help\x27 for a list of commands.\n") t).map
        (fun t' =>
          (if 32 ∈ line then (line ++ 0 :: rest).set (command_name line).length 0
            else line ++ 0 :: rest, t')) := by
  obtain ⟨c, tail, e, s1, s2, s3, s4, s5⟩ := execute_command_split line rest h0
  have n0 : 0 ∉ command_name line := fun m => h0 (command_name_subset line 0 m)
  have nb : ∀ b ∈ command_name line, b < 256 := fun b m => hb b (command_name_subset line b m)
  obtain ⟨d1, c1, i1⟩ := strcmp_literal (command_name line) tail (ascii "help") n0 nb
    (by decide) (by decide)
  obtain ⟨d2, c2, i2⟩ := strcmp_literal (command_name line) tail (ascii "clear") n0 nb
    (by decide) (by decide)
  obtain ⟨d3, c3, i3⟩ := strcmp_literal (command_name line) tail (ascii "color") n0 nb
    (by decide) (by decide)
  rw [← s4] at c1 c2 c3
  rw [execute_command_eq (line ++ 0 :: rest) t _ c s1 s2 d1 d2 d3 c1 c2 c3, s5]
  have ec : (if c = 32 then (line ++ 0 :: rest).set (command_name line).length 0
      else line ++ 0 :: rest) =
      (if 32 ∈ line then (line ++ 0 :: rest).set (command_name line).length 0
        else line ++ 0 :: rest) := by
    by_cases hc : c = 32
    · rw [if_pos hc, if_pos (s3.mp hc)]
    · rw [if_neg hc, if_neg (fun m => hc (s3.mpr m))]
  rw [ec]
  simp only [i1, i2, i3]
  rfl

/-- C8. For a NUL-terminated line of bytes, `execute_command` cuts the line at the first space
into command name and argument and compares the name exactly: `help` has the effect of
`cmd_help`, `clear` that of `terminal_initialize`, `color` that of `cmd_color` on the argument,
and every other name (such as `bogus`, `Help`, `helpx` or the empty name) exactly the effect of
writing the unknown-command message, which leaves `terminal_color` unchanged. The buffer is
returned with its first space, if any, replaced by a terminator. -/
theorem dispatch_by_exact_name (line rest : List Nat) (t : Display) (h0 : 0 ∉ line)
    (hb : ∀ b ∈ line, b < 256) :
    KernelC.execute_command (line ++ 0 :: rest) t =
      (if command_name line = ascii "help" then KernelC.cmd_help t
       else if command_name line = ascii "clear" then some ( terminal_initialize t)
       else if command_name line = ascii "color" then
         KernelC.cmd_color (command_arg line ++ 0 :: rest) t
       else KernelC.terminal_writestring
         (cstr "Unknown command. Type \x27help\x27 for a list of commands.\n") t).map
        (fun t' =>
          (if 32 ∈ line then (line ++ 0 :: rest).set (command_name line).length 0
            else line ++ 0 :: rest, t')) ∧
    (∀ name ∈ [ascii "bogus", ascii "Help", ascii "helpx", []],
      name ≠ ascii "help" ∧ name ≠ ascii "clear" ∧ name ≠ ascii "color") ∧
    (∃ t', KernelC.terminal_writestring
        (cstr "Unknown command. Type \x27help\x27 for a list of commands.\n") t = some t' ∧
      t'.terminal_color = t.terminal_color) := by
  exact ⟨execute_command_cases line rest t h0 hb, by decide,
    kernel_writestring_color _ (by decide) t⟩

theorem dispatch_by_exact_name_witness :
    KernelC.execute_command (ascii "bogus x" ++ 0 :: [7, 7]) sampleDisplay =
      (KernelC.terminal_writestring
        (cstr "Unknown command. Type \x27help\x27 for a list of commands.\n") sampleDisplay).map
        (fun t' => (ascii "bogus" ++ 0 :: ascii "x" ++ 0 :: [7, 7], t')) :=
  (dispatch_by_exact_name (ascii "bogus x") [7, 7] sampleDisplay (by decide) (by decide)).1


/-! ## The color command -/

/-- The function `cmd_color` on an argument whose first byte is `b`. -/
theorem cmd_color_eq (b : Nat) (tail : List Nat) (t : Display) (hb : b < 256) :
    KernelC.cmd_color (b :: tail) t =
      if 48 ≤ b ∧ b ≤ 63 then
        KernelC.terminal_writestring (cstr "Color changed.\n") (terminal_setcolor (b - 48) t)
      else
        KernelC.terminal_writestring
          (cstr "Invalid color. Please use a number between 0 and 15.\n") t := by
  unfold KernelC.cmd_color
  simp only [List.getElem?_cons_zero, Option.bind_eq_bind, Option.some_bind]
  by_cases h : 48 ≤ b ∧ b ≤ 63
  · have hi : KernelC.char_to_int b - 48 ≥ 0 ∧ KernelC.char_to_int b - 48 ≤ 15 := by
      unfold KernelC.char_to_int
      rw [Nat.mod_eq_of_lt hb, if_pos (by omega)]
      omega
    have hv : vga_entry_color (KernelC.char_to_int b - 48).toNat VGA_COLOR_BLACK = b - 48 := by
      have e : (KernelC.char_to_int b - 48).toNat = b - 48 := by
        unfold KernelC.char_to_int
        rw [Nat.mod_eq_of_lt hb, if_pos (by omega)]
        omega
      rw [e]
      unfold vga_entry_color VGA_COLOR_BLACK
      simp only [Nat.zero_shiftLeft, Nat.or_zero]
      omega
    rw [if_pos hi, if_pos h, hv]
  · have hi : ¬ (KernelC.char_to_int b - 48 ≥ 0 ∧ KernelC.char_to_int b - 48 ≤ 15) := by
      unfold KernelC.char_to_int
      rw [Nat.mod_eq_of_lt hb]
      split_ifs <;> omega
    rw [if_neg hi, if_neg h]

/-- The effect of `execute_command` on a line whose command name is `color`. -/
theorem execute_color_eq (line rest : List Nat) (t : Display) (h0 : 0 ∉ line)
    (hb : ∀ b ∈ line, b < 256) (hn : command_name line = ascii "color") :
    KernelC.execute_command (line ++ 0 :: rest) t =
      (KernelC.cmd_color (command_arg line ++ 0 :: rest) t).map
        (fun t' =>
          (if 32 ∈ line then (line ++ 0 :: rest).set (command_name line).length 0
            else line ++ 0 :: rest, t')) := by
  rw [execute_command_cases line rest t h0 hb,
    if_neg (show ¬ command_name line = ascii "help" by rw [hn]; decide),
    if_neg (show ¬ command_name line = ascii "clear" by rw [hn]; decide), if_pos hn]

/-- C10. Whether `cmd_color` accepts is decided by the first byte `b` of its argument: it accepts
exactly when `0 <= b - 48 <= 15`; then `terminal_color` becomes `b - 48` and the confirmation is
written with the new color; otherwise the range-error message is written and `terminal_color` is
unchanged. In particular `execute_command` on `color 5` sets `terminal_color` to 5 and on `color`
alone writes the range-error message. -/
theorem color_decided_by_first_byte (b : Nat) (tail : List Nat) (t : Display) (hb : b < 256) :
    ((0 ≤ KernelC.char_to_int b - 48 ∧ KernelC.char_to_int b - 48 ≤ 15) ↔ (48 ≤ b ∧ b ≤ 63)) ∧
    (48 ≤ b ∧ b ≤ 63 →
      KernelC.cmd_color (b :: tail) t =
        KernelC.terminal_writestring (cstr "Color changed.\n")
          (terminal_setcolor (b - 48) t) ∧
      vga_entry_color (b - 48) VGA_COLOR_BLACK = b - 48 ∧
      ∃ t', KernelC.cmd_color (b :: tail) t = some t' ∧ t'.terminal_color = b - 48) ∧
    (¬ (48 ≤ b ∧ b ≤ 63) →
      KernelC.cmd_color (b :: tail) t =
        KernelC.terminal_writestring
          (cstr "Invalid color. Please use a number between 0 and 15.\n") t ∧
      ∃ t', KernelC.cmd_color (b :: tail) t = some t' ∧
        t'.terminal_color = t.terminal_color) ∧
    (∃ r, KernelC.execute_command (cstr "color 5") t = some r ∧ r.2.terminal_color = 0x05) ∧
    KernelC.execute_command (cstr "color") t =
      (KernelC.terminal_writestring
        (cstr "Invalid color. Please use a number between 0 and 15.\n") t).map
        (fun t' => (cstr "color", t')) := by
  have e := cmd_color_eq b tail t hb
  refine ⟨?_, ?_, ?_, ?_, ?_⟩
  · unfold KernelC.char_to_int
    rw [Nat.mod_eq_of_lt hb]
    split_ifs <;> omega
  · intro h
    rw [if_pos h] at e
    obtain ⟨t', w, c⟩ := kernel_writestring_color (cstr "Color changed.\n") (by decide)
      (terminal_setcolor (b - 48) t)
    refine ⟨e, ?_, t', e.trans w, c.trans ?_⟩
    · unfold vga_entry_color VGA_COLOR_BLACK
      simp only [Nat.zero_shiftLeft, Nat.or_zero]
      omega
    · show (b - 48) % 256 = b - 48
      omega
  · intro h
    rw [if_neg h] at e
    obtain ⟨t', w, c⟩ := kernel_writestring_color
      (cstr "Invalid color. Please use a number between 0 and 15.\n") (by decide) t
    exact ⟨e, t', e.trans w, c⟩
  · have x := execute_color_eq (ascii "color 5") [] t (by decide) (by decide) (by decide)
    have y : KernelC.cmd_color (command_arg (ascii "color 5") ++ [0]) t =
        KernelC.terminal_writestring (cstr "Color changed.\n") (terminal_setcolor 5 t) :=
      (cmd_color_eq 53 [0] t (by decide)).trans (if_pos (by decide))
    obtain ⟨t', w, c⟩ := kernel_writestring_color (cstr "Color changed.\n") (by decide)
      (terminal_setcolor 5 t)
    rw [y, w] at x
    exact ⟨_, x, c⟩
  · have x := execute_color_eq (ascii "color") [] t (by decide) (by decide) (by decide)
    have y : KernelC.cmd_color (command_arg (ascii "color") ++ [0]) t =
        KernelC.terminal_writestring
          (cstr "Invalid color. Please use a number between 0 and 15.\n") t :=
      (cmd_color_eq 0 [] t (by decide)).trans (if_neg (by decide))
    rw [y, if_neg (show 32 ∉ ascii "color" by decide)] at x
    exact x

theorem color_decided_by_first_byte_witness :
    ∃ t', KernelC.cmd_color (58 :: [0]) sampleDisplay = some t' ∧ t'.terminal_color = 58 - 48 :=
  ((color_decided_by_first_byte 58 [0] sampleDisplay (by decide)).2.1
    (by decide)).2.2

/-- C9, the code at the failing inputs. On `color 99` the dispatcher does not write the
range-error message: it writes the confirmation and sets `terminal_color` from 7 to 9, because
only the first byte of the argument is examined; likewise `color 10` sets it to 1, not to 10. -/
theorem color_99_is_accepted :
    sampleDisplay.terminal_color = 7 ∧
    KernelC.execute_command (cstr "color 99") sampleDisplay =
      (KernelC.terminal_writestring (cstr "Color changed.\n")
        (terminal_setcolor 9 sampleDisplay)).map
        (fun t' => (ascii "color" ++ 0 :: cstr "99", t')) ∧
    (∃ r, KernelC.execute_command (cstr "color 99") sampleDisplay = some r ∧
      r.2.terminal_color = 9) ∧
    (∃ r, KernelC.execute_command (cstr "color 10") sampleDisplay = some r ∧
      r.2.terminal_color = 1) := by
  have x := execute_color_eq (ascii "color 99") [] sampleDisplay (by decide) (by decide)
    (by decide)
  have y : KernelC.cmd_color (command_arg (ascii "color 99") ++ [0]) sampleDisplay =
      KernelC.terminal_writestring (cstr "Color changed.\n")
        (terminal_setcolor 9 sampleDisplay) :=
    (cmd_color_eq 57 [57, 0] sampleDisplay (by decide)).trans (if_pos (by decide))
  obtain ⟨t', w, c⟩ := kernel_writestring_color (cstr "Color changed.\n") (by decide)
    (terminal_setcolor 9 sampleDisplay)
  have x2 := execute_color_eq (ascii "color 10") [] sampleDisplay (by decide) (by decide)
    (by decide)
  have y2 : KernelC.cmd_color (command_arg (ascii "color 10") ++ [0]) sampleDisplay =
      KernelC.terminal_writestring (cstr "Color changed.\n")
        (terminal_setcolor 1 sampleDisplay) :=
    (cmd_color_eq 49 [48, 0] sampleDisplay (by decide)).trans (if_pos (by decide))
  obtain ⟨t2, w2, c2⟩ := kernel_writestring_color (cstr "Color changed.\n") (by decide)
    (terminal_setcolor 1 sampleDisplay)
  rw [y] at x
  rw [y2, w2] at x2
  refine ⟨rfl, x, ⟨_, x.trans (by rw [w]; rfl), c⟩, ⟨_, x2, c2⟩⟩


/-! ## The two scancode decoders -/

set_option maxRecDepth 100000 in
theorem release_ge (s : Nat) (h : s < 256) (hr : s &&& 0x80 ≠ 0) : 128 ≤ s := by
  revert s
  decide

/-- C13. The decoder of `keyboard.c` returns 0 for every scancode from 90 on and the decoder of
`kernel.c` for every scancode from 58 on, 90 and 58 being the lengths of their tables; below
these bounds the value returned is the table entry at that index, so the table is only indexed in
range; every scancode byte with bit 7 set decodes to 0 in both. -/
theorem decoder_domain :
    KeyboardC.scancode_to_char.length = 90 ∧
    KernelC.scancode_table.length = 58 ∧
    (∀ s, 90 ≤ s → KeyboardC.get_char_from_scancode s = 0) ∧
    (∀ s, 58 ≤ s → KernelC.scancode_to_ascii s = 0) ∧
    (∀ s, s < 90 →
      KeyboardC.scancode_to_char[s]? = some (KeyboardC.get_char_from_scancode s)) ∧
    (∀ s, s < 58 → KernelC.scancode_table[s]? = some (KernelC.scancode_to_ascii s)) ∧
    (∀ s, s < 256 → s &&& 0x80 ≠ 0 →
      KeyboardC.get_char_from_scancode s = 0 ∧ KernelC.scancode_to_ascii s = 0) := by
  have l1 : KeyboardC.scancode_to_char.length = 90 := by decide
  have l2 : KernelC.scancode_table.length = 58 := by decide
  have k : ∀ s, 90 ≤ s → KeyboardC.get_char_from_scancode s = 0 := by
    intro s h
    unfold KeyboardC.get_char_from_scancode
    rw [if_pos (by rw [l1]; exact h)]
  have a : ∀ s, 58 ≤ s → KernelC.scancode_to_ascii s = 0 := by
    intro s h
    unfold KernelC.scancode_to_ascii
    rw [if_neg (by rw [l2]; omega)]
  refine ⟨l1, l2, k, a, ?_, ?_, ?_⟩
  · decide
  · decide
  · intro s hs hr
    have g := release_ge s hs hr
    exact ⟨k s (by omega), a s (by omega)⟩

theorem decoder_domain_witness :
    KeyboardC.get_char_from_scancode 158 = 0 ∧ KernelC.scancode_to_ascii 158 = 0 :=
  decoder_domain.2.2.2.2.2.2 158 (by decide) (by decide)

set_option maxRecDepth 100000 in
theorem decoders_agree_below_256 :
    ∀ s, s < 256 → s ≠ 1 → s ≠ 74 → s ≠ 78 →
      KernelC.scancode_to_ascii s = KeyboardC.get_char_from_scancode s := by
  decide

/-- C19. For every scancode byte other than 1, 74 and 78 the decoder of `kernel.c` and the
decoder of `keyboard.c` return the same value; at 1 `keyboard.c` returns 27, at 74 it returns
45 and at 78 it returns 43, while `kernel.c` returns 0 at all three. -/
theorem decoders_agree_except_three :
    (∀ s, s < 256 → s ≠ 1 → s ≠ 74 → s ≠ 78 →
      KernelC.scancode_to_ascii s = KeyboardC.get_char_from_scancode s) ∧
    KeyboardC.get_char_from_scancode 1 = 27 ∧
    KeyboardC.get_char_from_scancode 74 = 45 ∧
    KeyboardC.get_char_from_scancode 78 = 43 ∧
    KernelC.scancode_to_ascii 1 = 0 ∧
    KernelC.scancode_to_ascii 74 = 0 ∧
    KernelC.scancode_to_ascii 78 = 0 :=
  ⟨decoders_agree_below_256, by decide, by decide, by decide, by decide, by decide, by decide⟩

theorem decoders_agree_except_three_witness :
    KernelC.scancode_to_ascii 30 = KeyboardC.get_char_from_scancode 30 :=
  decoders_agree_except_three.1 30 (by decide) (by decide) (by decide) (by decide)


/-! ## Backspace in the display driver -/

/-- The facts about an ordinary character left of the last column, for `kernel.c`. -/
theorem ordinary_step_facts (c : Nat) (hc : c ≠ 10) (t : Display) (h : InBounds t)
    (k : t.terminal_column < 79) :
    (KernelC.terminal_putchar c t).terminal_row = t.terminal_row ∧
    (KernelC.terminal_putchar c t).terminal_column = t.terminal_column + 1 ∧
    (KernelC.terminal_putchar c t).terminal_color = t.terminal_color ∧
    (∀ j, (KernelC.terminal_putchar c t).terminal_buffer j =
      if j = t.terminal_row * 80 + t.terminal_column then vga_entry c t.terminal_color
      else t.terminal_buffer j) ∧
    (KernelC.terminal_putchar c t).writes =
      t.writes ++ [t.terminal_row * 80 + t.terminal_column] := by
  have idx := cursor_index t h
  rw [ordinary_step_eq c hc t k]
  refine ⟨rfl, rfl, rfl, ?_, ?_⟩
  · intro j
    rw [update_cursor_buffer]
    show (terminal_putentryat c t.terminal_color t.terminal_column t.terminal_row
      t).terminal_buffer j = _
    rw [putentryat_buffer, idx]
  · rw [update_cursor_writes]
    show (terminal_putentryat c t.terminal_color t.terminal_column t.terminal_row t).writes = _
    rw [putentryat_writes, idx]

/-- The facts about an ordinary character in the last column above the last row, for
`kernel.c`. -/
theorem ordinary_wrap_facts (c : Nat) (hc : c ≠ 10) (t : Display) (h : InBounds t)
    (k : t.terminal_column = 79) (r : t.terminal_row < 24) :
    (KernelC.terminal_putchar c t).terminal_row = t.terminal_row + 1 ∧
    (KernelC.terminal_putchar c t).terminal_column = 0 ∧
    (KernelC.terminal_putchar c t).terminal_color = t.terminal_color ∧
    (∀ j, (KernelC.terminal_putchar c t).terminal_buffer j =
      if j = t.terminal_row * 80 + t.terminal_column then vga_entry c t.terminal_color
      else t.terminal_buffer j) ∧
    (KernelC.terminal_putchar c t).writes =
      t.writes ++ [t.terminal_row * 80 + t.terminal_column] := by
  have idx := cursor_index t h
  rw [ordinary_wrap_eq c hc t k r]
  refine ⟨rfl, rfl, rfl, ?_, ?_⟩
  · intro j
    rw [update_cursor_buffer]
    show (terminal_putentryat c t.terminal_color t.terminal_column t.terminal_row
      t).terminal_buffer j = _
    rw [putentryat_buffer, idx]
  · rw [update_cursor_writes]
    show (terminal_putentryat c t.terminal_color t.terminal_column t.terminal_row t).writes = _
    rw [putentryat_writes, idx]

/-- The facts about a backspace of `terminal.c` right of the first column. -/
theorem backspace_erase_facts (t : Display) (h : InBounds t) (k : 0 < t.terminal_column) :
    (TerminalC.terminal_putchar 8 t).terminal_row = t.terminal_row ∧
    (TerminalC.terminal_putchar 8 t).terminal_column = t.terminal_column - 1 ∧
    (TerminalC.terminal_putchar 8 t).terminal_color = t.terminal_color ∧
    (∀ j, (TerminalC.terminal_putchar 8 t).terminal_buffer j =
      if j = t.terminal_row * 80 + (t.terminal_column - 1) then vga_entry 32 t.terminal_color
      else t.terminal_buffer j) ∧
    (TerminalC.terminal_putchar 8 t).writes =
      t.writes ++ [t.terminal_row * 80 + (t.terminal_column - 1)] := by
  obtain ⟨hr, hc⟩ := h
  simp only [VGA_HEIGHT, VGA_WIDTH] at hr hc
  have idx : (t.terminal_row * VGA_WIDTH + (t.terminal_column - 1)) % SIZE_MAX1 =
      t.terminal_row * 80 + (t.terminal_column - 1) := by
    simp only [VGA_WIDTH]
    exact mod_size _ (by omega)
  rw [backspace_erase_eq t k]
  refine ⟨rfl, rfl, rfl, ?_, ?_⟩
  · intro j
    rw [update_cursor_buffer, putentryat_buffer, idx]
  · rw [update_cursor_writes, putentryat_writes, idx]

/-- The facts about a backspace of `terminal.c` in the first column below the first row. -/
theorem backspace_wrap_facts (t : Display) (k : t.terminal_column = 0)
    (r : 0 < t.terminal_row) :
    (TerminalC.terminal_putchar 8 t).terminal_row = t.terminal_row - 1 ∧
    (TerminalC.terminal_putchar 8 t).terminal_column = 79 ∧
    (TerminalC.terminal_putchar 8 t).terminal_color = t.terminal_color ∧
    (TerminalC.terminal_putchar 8 t).terminal_buffer = t.terminal_buffer ∧
    (TerminalC.terminal_putchar 8 t).writes = t.writes := by
  rw [backspace_wrap_eq t k r]
  exact ⟨rfl, rfl, rfl, rfl, rfl⟩

/-- The facts about a backspace of `terminal.c` at the home position. -/
theorem backspace_home_facts (t : Display) (k : t.terminal_column = 0)
    (r : t.terminal_row = 0) :
    (TerminalC.terminal_putchar 8 t).terminal_row = t.terminal_row ∧
    (TerminalC.terminal_putchar 8 t).terminal_column = t.terminal_column ∧
    (TerminalC.terminal_putchar 8 t).terminal_color = t.terminal_color ∧
    (TerminalC.terminal_putchar 8 t).terminal_buffer = t.terminal_buffer ∧
    (TerminalC.terminal_putchar 8 t).writes = t.writes := by
  rw [backspace_home_eq t k r]
  exact ⟨rfl, rfl, rfl, rfl, rfl⟩

/-- C15. The backspace of `terminal.c` from an in-bounds state: right of the first column the
column decreases by one, the cell at the new cursor becomes `vga_entry(32, color)` and no other
cell changes; in the first column below the first row the cursor becomes `(row - 1, 79)` and
neither a cell nor the store log changes; at `(0, 0)` neither the cursor nor a cell changes. The
color is unchanged in every case. -/
theorem display_driver_backspace (t : Display) (h : InBounds t) :
    (TerminalC.terminal_putchar 8 t).terminal_color = t.terminal_color ∧
    (0 < t.terminal_column →
      (TerminalC.terminal_putchar 8 t).terminal_row = t.terminal_row ∧
      (TerminalC.terminal_putchar 8 t).terminal_column = t.terminal_column - 1 ∧
      (∀ j, (TerminalC.terminal_putchar 8 t).terminal_buffer j =
        if j = t.terminal_row * 80 + (t.terminal_column - 1) then
          vga_entry 32 t.terminal_color
        else t.terminal_buffer j) ∧
      (TerminalC.terminal_putchar 8 t).writes =
        t.writes ++ [t.terminal_row * 80 + (t.terminal_column - 1)]) ∧
    (t.terminal_column = 0 → 0 < t.terminal_row →
      (TerminalC.terminal_putchar 8 t).terminal_row = t.terminal_row - 1 ∧
      (TerminalC.terminal_putchar 8 t).terminal_column = 79 ∧
      (TerminalC.terminal_putchar 8 t).terminal_buffer = t.terminal_buffer ∧
      (TerminalC.terminal_putchar 8 t).writes = t.writes) ∧
    (t.terminal_column = 0 → t.terminal_row = 0 →
      (TerminalC.terminal_putchar 8 t).terminal_row = 0 ∧
      (TerminalC.terminal_putchar 8 t).terminal_column = 0 ∧
      (TerminalC.terminal_putchar 8 t).terminal_buffer = t.terminal_buffer ∧
      (TerminalC.terminal_putchar 8 t).writes = t.writes) := by
  refine ⟨?_, ?_, ?_, ?_⟩
  · by_cases k : 0 < t.terminal_column
    · exact (backspace_erase_facts t h k).2.2.1
    · have k' : t.terminal_column = 0 := by omega
      by_cases r : 0 < t.terminal_row
      · exact (backspace_wrap_facts t k' r).2.2.1
      · exact (backspace_home_facts t k' (by omega)).2.2.1
  · intro k
    have f := backspace_erase_facts t h k
    exact ⟨f.1, f.2.1, f.2.2.2.1, f.2.2.2.2⟩
  · intro k r
    have f := backspace_wrap_facts t k r
    exact ⟨f.1, f.2.1, f.2.2.2.1, f.2.2.2.2⟩
  · intro k r
    have f := backspace_home_facts t k r
    exact ⟨f.1.trans r, f.2.1.trans k, f.2.2.2.1, f.2.2.2.2⟩

theorem display_driver_backspace_witness :
    InBounds sampleMid ∧ (TerminalC.terminal_putchar 8 sampleMid).terminal_column = 5 - 1 :=
  ⟨by decide, ((display_driver_backspace sampleMid (by decide)).2.1 (by decide)).2.1⟩


/-- The facts about an ordinary character in the last column of the last row, for
`kernel.c`. -/
theorem ordinary_scroll_facts (c : Nat) (hc : c ≠ 10) (t : Display)
    (k : t.terminal_column = 79) (r : t.terminal_row = 24) :
    (KernelC.terminal_putchar c t).terminal_row = 24 ∧
    (KernelC.terminal_putchar c t).terminal_column = 0 ∧
    (KernelC.terminal_putchar c t).terminal_color = t.terminal_color ∧
    (KernelC.terminal_putchar c t).cell 23 79 = vga_entry c t.terminal_color ∧
    ∃ l, (KernelC.terminal_putchar c t).writes =
      t.writes ++ (t.terminal_row * 80 + t.terminal_column) :: l := by
  have e := ordinary_scroll_eq c hc t k r
  have sc := terminal_scroll_sameCursor
    { terminal_putentryat c t.terminal_color t.terminal_column t.terminal_row t with
      terminal_column := 0, terminal_row := 24 }
  obtain ⟨l, hl, _⟩ := terminal_scroll_storesBelow
    { terminal_putentryat c t.terminal_color t.terminal_column t.terminal_row t with
      terminal_column := 0, terminal_row := 24 }
  rw [e]
  refine ⟨?_, ?_, ?_, ?_, l, ?_⟩
  · rw [update_cursor_row, sc.1]
  · rw [update_cursor_column, sc.2.1]
  · rw [update_cursor_color, sc.2.2.1]
    rfl
  · unfold Display.cell
    rw [update_cursor_buffer, terminal_scroll_buffer, k, r]
    rfl
  · rw [update_cursor_writes, hl]
    show (terminal_putentryat c t.terminal_color t.terminal_column t.terminal_row t).writes
      ++ l = _
    rw [putentryat_writes, k, r, List.append_assoc]
    rfl

/-- C18. From an in-bounds state the two versions of `terminal_putchar` return the same state
(cells, cursor, color, store log and port log) for every byte other than backspace. On backspace
the version of `kernel.c` stores `vga_entry(8, color)`, which is `8 | color << 8`, at the cursor
and advances the column as for any ordinary byte, while the version of `terminal.c` moves the
cursor one position back (or leaves it at the home position); the two resulting columns always
differ. -/
theorem drivers_differ_only_on_backspace (t : Display) (h : InBounds t) :
    (∀ c, c ≠ 8 → KernelC.terminal_putchar c t = TerminalC.terminal_putchar c t) ∧
    (t.terminal_color < 256 → vga_entry 8 t.terminal_color = 8 ||| (t.terminal_color <<< 8)) ∧
    (∃ l, (KernelC.terminal_putchar 8 t).writes =
      t.writes ++ (t.terminal_row * 80 + t.terminal_column) :: l) ∧
    (t.terminal_column < 79 →
      (KernelC.terminal_putchar 8 t).terminal_row = t.terminal_row ∧
      (KernelC.terminal_putchar 8 t).terminal_column = t.terminal_column + 1 ∧
      ∀ j, (KernelC.terminal_putchar 8 t).terminal_buffer j =
        if j = t.terminal_row * 80 + t.terminal_column then vga_entry 8 t.terminal_color
        else t.terminal_buffer j) ∧
    (t.terminal_column = 79 → t.terminal_row < 24 →
      (KernelC.terminal_putchar 8 t).terminal_row = t.terminal_row + 1 ∧
      (KernelC.terminal_putchar 8 t).terminal_column = 0 ∧
      ∀ j, (KernelC.terminal_putchar 8 t).terminal_buffer j =
        if j = t.terminal_row * 80 + t.terminal_column then vga_entry 8 t.terminal_color
        else t.terminal_buffer j) ∧
    (t.terminal_column = 79 → t.terminal_row = 24 →
      (KernelC.terminal_putchar 8 t).terminal_row = 24 ∧
      (KernelC.terminal_putchar 8 t).terminal_column = 0 ∧
      (KernelC.terminal_putchar 8 t).cell 23 79 = vga_entry 8 t.terminal_color) ∧
    (0 < t.terminal_row * 80 + t.terminal_column →
      (TerminalC.terminal_putchar 8 t).terminal_row * 80 +
        (TerminalC.terminal_putchar 8 t).terminal_column =
        t.terminal_row * 80 + t.terminal_column - 1) ∧
    (t.terminal_row * 80 + t.terminal_column = 0 →
      (TerminalC.terminal_putchar 8 t).terminal_row * 80 +
        (TerminalC.terminal_putchar 8 t).terminal_column = 0) ∧
    (TerminalC.terminal_putchar 8 t).terminal_column ≠
      (KernelC.terminal_putchar 8 t).terminal_column := by
  have hh := h
  obtain ⟨hr, hc⟩ := hh
  simp only [VGA_HEIGHT, VGA_WIDTH] at hr hc
  have n10 : (8 : Nat) ≠ 10 := by decide
  -- the column after the backspace of `kernel.c`
  have kcol : (KernelC.terminal_putchar 8 t).terminal_column =
      if t.terminal_column < 79 then t.terminal_column + 1 else 0 := by
    by_cases k : t.terminal_column < 79
    · rw [if_pos k]
      exact (ordinary_step_facts 8 n10 t h k).2.1
    · rw [if_neg k]
      by_cases r : t.terminal_row < 24
      · exact (ordinary_wrap_facts 8 n10 t h (by omega) r).2.1
      · exact (ordinary_scroll_facts 8 n10 t (by omega) (by omega)).2.1
  -- the cursor after the backspace of `terminal.c`
  have tcur : ((TerminalC.terminal_putchar 8 t).terminal_row,
      (TerminalC.terminal_putchar 8 t).terminal_column) =
      if 0 < t.terminal_column then (t.terminal_row, t.terminal_column - 1)
      else if 0 < t.terminal_row then (t.terminal_row - 1, 79) else (0, 0) := by
    by_cases k : 0 < t.terminal_column
    · have f := backspace_erase_facts t h k
      rw [if_pos k, f.1, f.2.1]
    · by_cases r : 0 < t.terminal_row
      · have f := backspace_wrap_facts t (by omega) r
        rw [if_neg k, if_pos r, f.1, f.2.1]
      · have f := backspace_home_facts t (by omega) (by omega)
        rw [if_neg k, if_neg r, f.1, f.2.1]
        have r0 : t.terminal_row = 0 := by omega
        have k0 : t.terminal_column = 0 := by omega
        rw [r0, k0]
  have trow := congrArg Prod.fst tcur
  have tcol := congrArg Prod.snd tcur
  simp only [] at trow tcol
  refine ⟨fun c hc8 => (putchar_agree c hc8 t).symm, fun ha => vga_entry_eq 8 _ (by decide) ha,
    ?_, ?_, ?_, ?_, ?_, ?_, ?_⟩
  · by_cases k : t.terminal_column < 79
    · exact ⟨[], (ordinary_step_facts 8 n10 t h k).2.2.2.2⟩
    · by_cases r : t.terminal_row < 24
      · exact ⟨[], (ordinary_wrap_facts 8 n10 t h (by omega) r).2.2.2.2⟩
      · exact (ordinary_scroll_facts 8 n10 t (by omega) (by omega)).2.2.2.2
  · intro k
    have f := ordinary_step_facts 8 n10 t h k
    exact ⟨f.1, f.2.1, f.2.2.2.1⟩
  · intro k r
    have f := ordinary_wrap_facts 8 n10 t h k r
    exact ⟨f.1, f.2.1, f.2.2.2.1⟩
  · intro k r
    have f := ordinary_scroll_facts 8 n10 t k r
    exact ⟨f.1, f.2.1, f.2.2.2.1⟩
  · intro hp
    rw [trow, tcol]
    split_ifs <;> simp only [] <;> omega
  · intro hp
    rw [trow, tcol]
    split_ifs <;> simp only [] <;> omega
  · rw [tcol, kcol]
    split_ifs <;> simp only [] <;> omega

theorem drivers_differ_only_on_backspace_witness :
    InBounds sampleMid ∧
      KernelC.terminal_putchar 65 sampleMid = TerminalC.terminal_putchar 65 sampleMid ∧
      (KernelC.terminal_putchar 8 sampleMid).terminal_column = 5 + 1 :=
  ⟨by decide, (drivers_differ_only_on_backspace sampleMid (by decide)).1 65 (by decide),
    ((drivers_differ_only_on_backspace sampleMid (by decide)).2.2.2.1 (by decide)).2.1⟩


/-! ## The three-step erase with the driver of `terminal.c` -/

/-- The erase sequence right of the first column. -/
theorem erase_echo_in_row (t : Display) (h : InBounds t) (k : 0 < t.terminal_column) :
    (TerminalC.erase_echo t).terminal_row = t.terminal_row ∧
    (TerminalC.erase_echo t).terminal_column = t.terminal_column - 1 ∧
    (TerminalC.erase_echo t).terminal_color = t.terminal_color ∧
    (∀ j, (TerminalC.erase_echo t).terminal_buffer j =
      if j = t.terminal_row * 80 + t.terminal_column - 1 then vga_entry 32 t.terminal_color
      else t.terminal_buffer j) ∧
    ∃ l, (TerminalC.erase_echo t).writes = t.writes ++ l ∧
      ∀ w ∈ l, w = t.terminal_row * 80 + t.terminal_column - 1 := by
  have hh := h
  obtain ⟨hr, hc⟩ := hh
  simp only [VGA_HEIGHT, VGA_WIDTH] at hr hc
  obtain ⟨r1, c1, a1, b1, w1⟩ := backspace_erase_facts t h k
  have h1 : InBounds (TerminalC.terminal_putchar 8 t) :=
    inBounds_of _ _ _ r1 c1 hr (by omega)
  have f2 := ordinary_step_facts 32 (by decide) (TerminalC.terminal_putchar 8 t) h1
    (by rw [c1]; omega)
  rw [← putchar_agree 32 (by decide)] at f2
  obtain ⟨r2, c2, a2, b2, w2⟩ := f2
  have h2 : InBounds (TerminalC.terminal_putchar 32 (TerminalC.terminal_putchar 8 t)) :=
    inBounds_of _ _ _ (r2.trans r1) (c2.trans (by rw [c1])) hr (by omega)
  obtain ⟨r3, c3, a3, b3, w3⟩ := backspace_erase_facts
    (TerminalC.terminal_putchar 32 (TerminalC.terminal_putchar 8 t)) h2 (by rw [c2]; omega)
  have p1 : t.terminal_row * 80 + (t.terminal_column - 1) =
      t.terminal_row * 80 + t.terminal_column - 1 := by omega
  unfold TerminalC.erase_echo
  refine ⟨by rw [r3, r2, r1], by rw [c3, c2, c1]; omega, by rw [a3, a2, a1], ?_, ?_⟩
  · intro j
    rw [b3, b2, b1, a2, a1, r2, r1, c2, c1]
    have e : t.terminal_row * 80 + (t.terminal_column - 1 + 1 - 1) =
        t.terminal_row * 80 + t.terminal_column - 1 := by omega
    rw [e, p1]
    by_cases hj : j = t.terminal_row * 80 + t.terminal_column - 1
    · simp only [if_pos hj]
    · simp only [if_neg hj]
  · refine ⟨[t.terminal_row * 80 + t.terminal_column - 1,
      t.terminal_row * 80 + t.terminal_column - 1,
      t.terminal_row * 80 + t.terminal_column - 1], ?_, ?_⟩
    · rw [w3, w2, w1, r2, r1, c2, c1]
      have e : t.terminal_row * 80 + (t.terminal_column - 1 + 1 - 1) =
          t.terminal_row * 80 + t.terminal_column - 1 := by omega
      rw [e, p1]
      simp
    · intro w hw
      simp at hw
      exact hw

/-- The erase sequence from the first column of a row below the first. -/
theorem erase_echo_across_rows (t : Display) (h : InBounds t) (k : t.terminal_column = 0)
    (r : 0 < t.terminal_row) :
    (TerminalC.erase_echo t).terminal_row = t.terminal_row - 1 ∧
    (TerminalC.erase_echo t).terminal_column = 79 ∧
    (TerminalC.erase_echo t).terminal_color = t.terminal_color ∧
    (∀ j, (TerminalC.erase_echo t).terminal_buffer j =
      if j = t.terminal_row * 80 + t.terminal_column - 1 then vga_entry 32 t.terminal_color
      else t.terminal_buffer j) ∧
    ∃ l, (TerminalC.erase_echo t).writes = t.writes ++ l ∧
      ∀ w ∈ l, w = t.terminal_row * 80 + t.terminal_column - 1 := by
  have hh := h
  obtain ⟨hr, hc⟩ := hh
  simp only [VGA_HEIGHT, VGA_WIDTH] at hr hc
  obtain ⟨r1, c1, a1, b1, w1⟩ := backspace_wrap_facts t k r
  have h1 : InBounds (TerminalC.terminal_putchar 8 t) :=
    inBounds_of _ _ _ r1 c1 (by omega) (by omega)
  have f2 := ordinary_wrap_facts 32 (by decide) (TerminalC.terminal_putchar 8 t) h1 c1
    (by rw [r1]; omega)
  rw [← putchar_agree 32 (by decide)] at f2
  obtain ⟨r2, c2, a2, b2, w2⟩ := f2
  obtain ⟨r3, c3, a3, b3, w3⟩ := backspace_wrap_facts
    (TerminalC.terminal_putchar 32 (TerminalC.terminal_putchar 8 t)) c2 (by rw [r2]; omega)
  have p1 : (t.terminal_row - 1) * 80 + 79 = t.terminal_row * 80 + t.terminal_column - 1 := by
    omega
  unfold TerminalC.erase_echo
  refine ⟨by rw [r3, r2, r1]; omega, c3, by rw [a3, a2, a1], ?_, ?_⟩
  · intro j
    rw [b3, b2, b1, a1, r1, c1, p1]
  · refine ⟨[t.terminal_row * 80 + t.terminal_column - 1], ?_, ?_⟩
    · rw [w3, w2, w1, r1, c1, p1]
    · intro w hw
      simpa using hw

/-- C20. From an in-bounds state whose linear cursor position `p = row * 80 + column` is
positive, the sequence backspace, space, backspace through the `terminal_putchar` of
`terminal.c` ends with the cursor at linear position `p - 1` (one column left, or at column 79 of
the previous row when it started in column 0), the cell at `p - 1` equal to
`vga_entry(32, color)`, every other cell and the color unchanged, and stores at no index other
than `p - 1`, so that no scroll took place. -/
theorem three_step_erase (t : Display) (h : InBounds t)
    (hp : 0 < t.terminal_row * 80 + t.terminal_column) :
    InBounds (TerminalC.erase_echo t) ∧
    (TerminalC.erase_echo t).terminal_row * 80 + (TerminalC.erase_echo t).terminal_column =
      t.terminal_row * 80 + t.terminal_column - 1 ∧
    (0 < t.terminal_column →
      (TerminalC.erase_echo t).terminal_row = t.terminal_row ∧
      (TerminalC.erase_echo t).terminal_column = t.terminal_column - 1) ∧
    (t.terminal_column = 0 →
      (TerminalC.erase_echo t).terminal_row = t.terminal_row - 1 ∧
      (TerminalC.erase_echo t).terminal_column = 79) ∧
    (TerminalC.erase_echo t).terminal_color = t.terminal_color ∧
    (∀ j, (TerminalC.erase_echo t).terminal_buffer j =
      if j = t.terminal_row * 80 + t.terminal_column - 1 then vga_entry 32 t.terminal_color
      else t.terminal_buffer j) ∧
    ∃ l, (TerminalC.erase_echo t).writes = t.writes ++ l ∧
      ∀ w ∈ l, w = t.terminal_row * 80 + t.terminal_column - 1 := by
  have hh := h
  obtain ⟨hr, hc⟩ := hh
  simp only [VGA_HEIGHT, VGA_WIDTH] at hr hc
  by_cases k : 0 < t.terminal_column
  · obtain ⟨r1, c1, a1, b1, w1⟩ := erase_echo_in_row t h k
    refine ⟨inBounds_of _ _ _ r1 c1 hr (by omega), by rw [r1, c1]; omega, fun _ => ⟨r1, c1⟩,
      fun k0 => by omega, a1, b1, w1⟩
  · have k0 : t.terminal_column = 0 := by omega
    have r0 : 0 < t.terminal_row := by omega
    obtain ⟨r1, c1, a1, b1, w1⟩ := erase_echo_across_rows t h k0 r0
    refine ⟨inBounds_of _ _ _ r1 c1 (by omega) (by omega), by rw [r1, c1]; omega,
      fun k1 => absurd k1 k, fun _ => ⟨r1, c1⟩, a1, b1, w1⟩

theorem three_step_erase_witness :
    InBounds sampleMid ∧ (TerminalC.erase_echo sampleMid).terminal_row * 80 +
      (TerminalC.erase_echo sampleMid).terminal_column = 2 * 80 + 5 - 1 :=
  ⟨by decide, (three_step_erase sampleMid (by decide) (by decide)).2.1⟩


/-! ## The backspace echo of `readline` in `kernel.c` -/

/-- C14, the code at the failing input. With one character in the buffer and the cursor at row 2,
column 5, a backspace press (scancode 14) makes `readline` of `kernel.c` decrement `i`, but its
three calls of `terminal_putchar` store the cells `0x0708`, `0x0720`, `0x0708` at columns 5, 6
and 7 and leave the cursor at column 8; the cell at column 4 is not touched. The same three
calls through the `terminal_putchar` of `terminal.c` leave the cursor at column 4. -/
theorem kernel_backspace_echo_moves_right :
    KernelC.scancode_to_ascii 14 = 8 ∧
    sampleReader.term.terminal_row = 2 ∧ sampleReader.term.terminal_column = 5 ∧
    (KernelC.readline_loop 4 [14] sampleReader).state.i = 0 ∧
    (KernelC.readline_loop 4 [14] sampleReader).state.term.terminal_row = 2 ∧
    (KernelC.readline_loop 4 [14] sampleReader).state.term.terminal_column = 8 ∧
    (KernelC.readline_loop 4 [14] sampleReader).state.term.cell 2 5 = 0x0708 ∧
    (KernelC.readline_loop 4 [14] sampleReader).state.term.cell 2 6 = 0x0720 ∧
    (KernelC.readline_loop 4 [14] sampleReader).state.term.cell 2 7 = 0x0708 ∧
    (KernelC.readline_loop 4 [14] sampleReader).state.term.cell 2 4 = sampleMid.cell 2 4 ∧
    sampleMid.cell 2 4 ≠ 0x0720 ∧
    (TerminalC.erase_echo sampleMid).terminal_column = 4 := by
  decide


/-! ## Clearing the screen -/

/-- Contents after the first `n` steps of the loop that blanks row `y`. -/
theorem fillRow_buffer (y : Nat) (hy : y < 25) (n : Nat) (hn : n ≤ 80) (s : Display) (j : Nat) :
    (forLoop n (fun x s => store ((y * VGA_WIDTH + x) % SIZE_MAX1)
        (vga_entry 32 s.terminal_color) s) s).terminal_buffer j =
      if y * 80 ≤ j ∧ j < y * 80 + n then vga_entry 32 s.terminal_color
      else s.terminal_buffer j := by
  induction n generalizing j with
  | zero =>
    have : ¬ (y * 80 ≤ j ∧ j < y * 80 + 0) := by omega
    rw [if_neg this]; rfl
  | succ n ih =>
    have hn' : n ≤ 80 := by omega
    have hc := (storeLoop_sameCursor n (fun x => (y * VGA_WIDTH + x) % SIZE_MAX1)
      (fun _ s => vga_entry 32 s.terminal_color) s).2.2.1
    have e1 : (y * VGA_WIDTH + n) % SIZE_MAX1 = y * 80 + n := by
      simp only [VGA_WIDTH]
      exact mod_size _ (by omega)
    rw [forLoop, store_buffer, e1, hc, ih hn' j]
    by_cases hj : j = y * 80 + n
    · have b : y * 80 ≤ j ∧ j < y * 80 + (n + 1) := by omega
      rw [if_pos hj, if_pos b]
    · rw [if_neg hj]
      by_cases c : y * 80 ≤ j ∧ j < y * 80 + n
      · have c' : y * 80 ≤ j ∧ j < y * 80 + (n + 1) := by omega
        rw [if_pos c, if_pos c']
      · have c' : ¬ (y * 80 ≤ j ∧ j < y * 80 + (n + 1)) := by omega
        rw [if_neg c, if_neg c']

/-- Contents and color after the first `k` rows have been blanked. -/
theorem fillRows_buffer (k : Nat) (hk : k ≤ 25) (s : Display) :
    (forLoop k (fun y s => forLoop VGA_WIDTH (fun x s =>
        store ((y * VGA_WIDTH + x) % SIZE_MAX1) (vga_entry 32 s.terminal_color) s) s)
        s).terminal_color = s.terminal_color ∧
    ∀ j, (forLoop k (fun y s => forLoop VGA_WIDTH (fun x s =>
        store ((y * VGA_WIDTH + x) % SIZE_MAX1) (vga_entry 32 s.terminal_color) s) s)
        s).terminal_buffer j =
      if j < k * 80 then vga_entry 32 s.terminal_color else s.terminal_buffer j := by
  induction k with
  | zero =>
    refine ⟨rfl, fun j => ?_⟩
    have : ¬ (j < 0 * 80) := by omega
    rw [if_neg this]; rfl
  | succ k ih =>
    obtain ⟨ic, ib⟩ := ih (by omega)
    have hc := (storeLoop_sameCursor VGA_WIDTH (fun x => (k * VGA_WIDTH + x) % SIZE_MAX1)
      (fun _ s => vga_entry 32 s.terminal_color)
      (forLoop k (fun y s => forLoop VGA_WIDTH (fun x s =>
        store ((y * VGA_WIDTH + x) % SIZE_MAX1) (vga_entry 32 s.terminal_color) s) s)
        s)).2.2.1
    refine ⟨hc.trans ic, fun j => ?_⟩
    refine (fillRow_buffer k (by omega) 80 (le_refl _) _ j).trans ?_
    rw [ic, ib j]
    by_cases c : k * 80 ≤ j ∧ j < k * 80 + 80
    · have b : j < (k + 1) * 80 := by omega
      rw [if_pos c, if_pos b]
    · rw [if_neg c]
      by_cases d : j < k * 80
      · have b : j < (k + 1) * 80 := by omega
        rw [if_pos d, if_pos b]
      · have b : ¬ (j < (k + 1) * 80) := by omega
        rw [if_neg d, if_neg b]

theorem terminal_initialize_eq (t : Display) :
    terminal_initialize t =
      forLoop VGA_HEIGHT (fun y s => forLoop VGA_WIDTH (fun x s =>
        store ((y * VGA_WIDTH + x) % SIZE_MAX1) (vga_entry 32 s.terminal_color) s) s)
        { t with terminal_row := 0, terminal_column := 0,
                 terminal_color := vga_entry_color VGA_COLOR_LIGHT_GREY VGA_COLOR_BLACK } := by
  unfold terminal_initialize
  rfl

/-- The display after `terminal_initialize`. -/
theorem terminal_initialize_facts (t : Display) :
    ( terminal_initialize t).terminal_row = 0 ∧
    ( terminal_initialize t).terminal_column = 0 ∧
    ( terminal_initialize t).terminal_color = 7 ∧
    ∀ j, ( terminal_initialize t).terminal_buffer j =
      if j < 2000 then 0x0720 else t.terminal_buffer j := by
  have sc : SameCursor
      { t with terminal_row := 0, terminal_column := 0,
               terminal_color := vga_entry_color VGA_COLOR_LIGHT_GREY VGA_COLOR_BLACK }
      ( terminal_initialize t) :=
    forLoop_rel SameCursor sameCursor_refl sameCursor_trans _ _ (fun y _ s =>
      storeLoop_sameCursor VGA_WIDTH (fun x => (y * VGA_WIDTH + x) % SIZE_MAX1)
        (fun _ s => vga_entry 32 s.terminal_color) s) _
  have fb := (fillRows_buffer VGA_HEIGHT (le_refl _)
      { t with terminal_row := 0, terminal_column := 0,
               terminal_color := vga_entry_color VGA_COLOR_LIGHT_GREY VGA_COLOR_BLACK }).2
  have e7 : vga_entry_color VGA_COLOR_LIGHT_GREY VGA_COLOR_BLACK = 7 := by decide
  have e20 : vga_entry 32 (vga_entry_color VGA_COLOR_LIGHT_GREY VGA_COLOR_BLACK) = 0x0720 := by
    decide
  refine ⟨sc.1, sc.2.1, sc.2.2.1.trans e7, fun j => ?_⟩
  rw [terminal_initialize_eq, fb j, show VGA_HEIGHT * 80 = 2000 from rfl]
  by_cases hj : j < 2000
  · rw [if_pos hj, if_pos hj]
    exact e20
  · rw [if_neg hj, if_neg hj]

/-- C11. After `execute_command` on `clear`, from any prior display state, the cursor is
`(0, 0)`, `terminal_color` is `0x07` and every one of the 2000 cells is
`vga_entry(32, 0x07) = 0x0720`; cursor, color and grid are therefore the same for any two prior
states. -/
theorem clear_resets_display (t : Display) :
    KernelC.execute_command (cstr "clear") t = some (cstr "clear", terminal_initialize t) ∧
    ( terminal_initialize t).terminal_row = 0 ∧
    ( terminal_initialize t).terminal_column = 0 ∧
    ( terminal_initialize t).terminal_color = 0x07 ∧
    vga_entry 32 0x07 = 0x0720 ∧
    (∀ y x, y < 25 → x < 80 → ( terminal_initialize t).cell y x = 0x0720) ∧
    (∀ t2 : Display,
      ( terminal_initialize t2).terminal_row = ( terminal_initialize t).terminal_row ∧
      ( terminal_initialize t2).terminal_column = ( terminal_initialize t).terminal_column ∧
      ( terminal_initialize t2).terminal_color = ( terminal_initialize t).terminal_color ∧
      ∀ y x, y < 25 → x < 80 →
        ( terminal_initialize t2).cell y x = ( terminal_initialize t).cell y x) := by
  have cells : ∀ (d : Display) (y x : Nat), y < 25 → x < 80 →
      ( terminal_initialize d).cell y x = 0x0720 := by
    intro d y x hy hx
    unfold Display.cell
    rw [(terminal_initialize_facts d).2.2.2, if_pos (by simp only [VGA_WIDTH]; omega)]
  obtain ⟨r, c, a, _⟩ := terminal_initialize_facts t
  refine ⟨?_, r, c, a, by decide, cells t, fun t2 => ?_⟩
  · have x := execute_command_cases (ascii "clear") [] t (by decide) (by decide)
    rw [if_neg (show ¬ command_name (ascii "clear") = ascii "help" by decide),
      if_pos (show command_name (ascii "clear") = ascii "clear" by decide),
      if_neg (show 32 ∉ ascii "clear" by decide)] at x
    exact x
  · obtain ⟨r2, c2, a2, _⟩ := terminal_initialize_facts t2
    exact ⟨r2.trans r.symm, c2.trans c.symm, a2.trans a.symm,
      fun y x hy hx => (cells t2 y x hy hx).trans (cells t y x hy hx).symm⟩

theorem clear_resets_display_witness :
    ( terminal_initialize sampleDisplay).cell 24 79 = 0x0720 :=
  (clear_resets_display sampleDisplay).2.2.2.2.2.1 24 79 (by decide) (by decide)


/-! ## Key releases -/

theorem outcome_cases (o : KernelC.Outcome) :
    (∃ st rest, o = .returned st rest) ∨ ∃ st, o = .blocked st := by
  cases o with
  | returned st rest => exact Or.inl ⟨st, rest, rfl⟩
  | blocked st => exact Or.inr ⟨st, rfl⟩

/-- A release scancode inserted into the stream changes neither how the loop ends nor the state
in which it ends. -/
theorem loop_insert_release (n r : Nat) (hr : r < 256) (hb : r &&& 0x80 ≠ 0) (q : List Nat)
    (p : List Nat) (st : KernelC.LineReader) :
    (∃ st' r1 r2, KernelC.readline_loop n (p ++ r :: q) st = .returned st' r1 ∧
      KernelC.readline_loop n (p ++ q) st = .returned st' r2) ∨
    (∃ st', KernelC.readline_loop n (p ++ r :: q) st = .blocked st' ∧
      KernelC.readline_loop n (p ++ q) st = .blocked st') := by
  induction p generalizing st with
  | nil =>
    by_cases hi : st.i < (n + SIZE_MAX1 - 1) % SIZE_MAX1
    · rw [List.nil_append, List.nil_append, loop_release n r q st hi hr hb]
      rcases outcome_cases (KernelC.readline_loop n q st) with ⟨st', rest, e⟩ | ⟨st', e⟩
      · exact Or.inl ⟨st', rest, rest, e, e⟩
      · exact Or.inr ⟨st', e, e⟩
    · rw [List.nil_append, List.nil_append, loop_exit n _ st hi, loop_exit n _ st hi]
      exact Or.inl ⟨st, _, _, rfl, rfl⟩
  | cons sc tl ih =>
    rw [List.cons_append, List.cons_append, KernelC.readline_loop, KernelC.readline_loop]
    simp only []
    split_ifs
    · exact ih st
    · exact Or.inl ⟨_, _, _, rfl, rfl⟩
    · exact ih _
    · exact ih _
    · exact ih st
    · exact Or.inl ⟨_, _, _, rfl, rfl⟩

/-- C12. A scancode byte with bit 7 set is skipped by the loop of `readline`: the run continues
from the same reader state (buffer, length `i`, display with its cells, cursor, color and both
output logs). Hence a release scancode inserted anywhere in a stream changes neither whether
`readline` returns nor the state it ends in, that is neither the line in the buffer nor the
display. -/
theorem key_releases_are_inert (n r : Nat) (hr : r < 256) (hb : r &&& 0x80 ≠ 0) :
    (∀ (rest : List Nat) (st : KernelC.LineReader), st.i < (n + SIZE_MAX1 - 1) % SIZE_MAX1 →
      KernelC.readline_loop n (r :: rest) st = KernelC.readline_loop n rest st) ∧
    (∀ (buffer p q : List Nat) (t : Display),
      (KernelC.readline buffer n (p ++ r :: q) t).state =
        (KernelC.readline buffer n (p ++ q) t).state ∧
      (KernelC.readline buffer n (p ++ r :: q) t).unread.isSome =
        (KernelC.readline buffer n (p ++ q) t).unread.isSome) := by
  refine ⟨fun rest st hi => loop_release n r rest st hi hr hb, ?_⟩
  intro buffer p q t
  unfold KernelC.readline
  rcases loop_insert_release n r hr hb q p
    { buffer := buffer, i := 0, term := t, bufWrites := [] } with
    ⟨st', r1, r2, e1, e2⟩ | ⟨st', e1, e2⟩
  · rw [e1, e2]
    exact ⟨rfl, rfl⟩
  · rw [e1, e2]
    exact ⟨rfl, rfl⟩

theorem key_releases_are_inert_witness :
    (KernelC.readline [7, 7, 7, 7] 4 ([30] ++ 158 :: [48, 28]) sampleMid).state =
      (KernelC.readline [7, 7, 7, 7] 4 ([30] ++ [48, 28]) sampleMid).state :=
  ((key_releases_are_inert 4 158 (by decide) (by decide)).2 [7, 7, 7, 7] [30] [48, 28]
    sampleMid).1


/-! ## Writes that stay on the row -/

/-- Ordinary characters that fit left of the last column move the cursor right by their
number. -/
theorem short_fold (l : List Nat) (t : Display) (h : InBounds t)
    (hl : ∀ c ∈ l, c ≠ 10 ∧ c ≠ 8) (hs : t.terminal_column + l.length < 80) :
    (l.foldl (fun s c => TerminalC.terminal_putchar c s) t).terminal_row = t.terminal_row ∧
    (l.foldl (fun s c => TerminalC.terminal_putchar c s) t).terminal_column =
      t.terminal_column + l.length := by
  induction l generalizing t with
  | nil => exact ⟨rfl, rfl⟩
  | cons c cs ih =>
    have hh := h
    obtain ⟨hr, hc⟩ := hh
    simp only [VGA_HEIGHT, VGA_WIDTH] at hr hc
    rw [List.length_cons] at hs
    obtain ⟨c10, c8⟩ := hl c (List.mem_cons_self _ _)
    have f := ordinary_step_facts c c10 t h (by omega)
    rw [← putchar_agree c c8] at f
    obtain ⟨r1, k1, _, _, _⟩ := f
    have h1 : InBounds (TerminalC.terminal_putchar c t) :=
      inBounds_of _ _ _ r1 k1 hr (by omega)
    obtain ⟨r2, k2⟩ := ih (TerminalC.terminal_putchar c t) h1
      (fun x hx => hl x (List.mem_cons_of_mem _ hx)) (by rw [k1]; omega)
    rw [List.foldl_cons, List.length_cons]
    exact ⟨r2.trans r1, by rw [k2, k1]; omega⟩

/-- C16, counterexample. From row 2, column 79 a write of the single byte `A`, whose length 1 is
`80 - column`, ends at row 3, column 0. -/
theorem write_up_to_the_margin_wraps :
    InBounds sampleEdge ∧ [65].length ≤ 80 - sampleEdge.terminal_column ∧
      sampleEdge.terminal_row = 2 ∧
      (TerminalC.terminal_write [65] [65].length sampleEdge).map
        (fun t => (t.terminal_row, t.terminal_column)) = some (3, 0) := by
  decide

/-- C16, as amended. From an in-bounds state, `terminal_write` of `L` bytes without newline and
backspace leaves the row unchanged and sets the column to `column + L` when `L < 80 - column`;
when `L = 80 - column` the last byte fills column 79 and the cursor wraps: the column becomes 0
and the row `row + 1`, or stays 24 in the last row. -/
theorem short_write_stays_on_row (t : Display) (data : List Nat) (h : InBounds t)
    (hd : ∀ c ∈ data, c ≠ 10 ∧ c ≠ 8) :
    (data.length < 80 - t.terminal_column →
      ∃ t', TerminalC.terminal_write data data.length t = some t' ∧
        t'.terminal_row = t.terminal_row ∧
        t'.terminal_column = t.terminal_column + data.length) ∧
    (data.length = 80 - t.terminal_column →
      ∃ t', TerminalC.terminal_write data data.length t = some t' ∧
        t'.terminal_column = 0 ∧
        t'.terminal_row = if t.terminal_row < 24 then t.terminal_row + 1 else 24) := by
  have hh := h
  obtain ⟨hr, hc⟩ := hh
  simp only [VGA_HEIGHT, VGA_WIDTH] at hr hc
  have w : TerminalC.terminal_write data data.length t =
      some (data.foldl (fun s c => TerminalC.terminal_putchar c s) t) := by
    have e := writeLoop_eq TerminalC.terminal_putchar data data.length (le_refl _) t
    rw [List.take_length] at e
    exact e
  constructor
  · intro hs
    exact ⟨_, w, short_fold data t h hd (by omega)⟩
  · intro hs
    refine ⟨_, w, ?_⟩
    have ne : data ≠ [] := by
      intro e
      rw [e] at hs
      simp at hs
      omega
    obtain ⟨c10, c8⟩ := hd (data.getLast ne) (List.getLast_mem ne)
    have hi : ∀ c ∈ data.dropLast, c ≠ 10 ∧ c ≠ 8 :=
      fun c m => hd c (List.mem_of_mem_dropLast m)
    have li : data.dropLast.length = data.length - 1 := List.length_dropLast _
    have dl : 0 < data.length := List.length_pos.mpr ne
    obtain ⟨r1, k1⟩ := short_fold data.dropLast t h hi (by omega)
    have h1 : InBounds (data.dropLast.foldl (fun s c => TerminalC.terminal_putchar c s) t) :=
      inBounds_of _ _ _ r1 k1 hr (by omega)
    have k79 : (data.dropLast.foldl (fun s c => TerminalC.terminal_putchar c s)
        t).terminal_column = 79 := by
      rw [k1]; omega
    have split : data.foldl (fun s c => TerminalC.terminal_putchar c s) t =
        TerminalC.terminal_putchar (data.getLast ne)
          (data.dropLast.foldl (fun s c => TerminalC.terminal_putchar c s) t) := by
      conv => lhs; rw [← List.dropLast_append_getLast ne]
      rw [List.foldl_append]
      rfl
    rw [split, putchar_agree _ c8]
    by_cases r : t.terminal_row < 24
    · have f := ordinary_wrap_facts (data.getLast ne) c10 _ h1 k79 (by rw [r1]; exact r)
      rw [if_pos r]
      exact ⟨f.2.1, f.1.trans (by rw [r1])⟩
    · have f := ordinary_scroll_facts (data.getLast ne) c10 _ k79 (by rw [r1]; omega)
      rw [if_neg r]
      exact ⟨f.2.1, f.1⟩

theorem short_write_stays_on_row_witness :
    InBounds sampleMid ∧
      ∃ t', TerminalC.terminal_write [104, 105] [104, 105].length sampleMid = some t' ∧
        t'.terminal_row = sampleMid.terminal_row ∧
        t'.terminal_column = sampleMid.terminal_column + [104, 105].length :=
  ⟨by decide, (short_write_stays_on_row sampleMid [104, 105] (by decide) (by decide)).1
    (by decide)⟩


/-! ## The scoped color change -/

/-- The color is the same after a character output of `terminal.c`, from any state. -/
theorem terminal_putchar_color (c : Nat) (t : Display) :
    (TerminalC.terminal_putchar c t).terminal_color = t.terminal_color := by
  by_cases c8 : c = 8
  · subst c8
    by_cases k : 0 < t.terminal_column
    · rw [backspace_erase_eq t k]
      rfl
    · by_cases r : 0 < t.terminal_row
      · rw [backspace_wrap_eq t (by omega) r]
        rfl
      · rw [backspace_home_eq t (by omega) (by omega)]
        rfl
  · rw [putchar_agree c c8, kernel_putchar_color]

theorem terminal_fold_color (l : List Nat) (t : Display) :
    (l.foldl (fun s c => TerminalC.terminal_putchar c s) t).terminal_color =
      t.terminal_color := by
  induction l generalizing t with
  | nil => rfl
  | cons c cs ih =>
    rw [List.foldl_cons, ih, terminal_putchar_color]

/-- C17. For a NUL-terminated string, `terminal_writestring_color(data, attr)` (both files)
returns with `terminal_color` equal to its value before the call, and with the cells, the cursor
and both output logs of `terminal_writestring(data)` started from the same state with the color
set to `attr`; during that write the color stays `attr`. -/
theorem scoped_color_change (t : Display) (data : List Nat) (attr : Nat) (h0 : 0 ∈ data)
    (hc : t.terminal_color < 256) :
    (∃ t1 t2, TerminalC.terminal_writestring data (terminal_setcolor attr t) = some t1 ∧
      TerminalC.terminal_writestring_color data attr t = some t2 ∧
      t2.terminal_color = t.terminal_color ∧
      t1.terminal_color = attr % 256 ∧
      t2.terminal_buffer = t1.terminal_buffer ∧
      t2.terminal_row = t1.terminal_row ∧
      t2.terminal_column = t1.terminal_column ∧
      t2.writes = t1.writes ∧ t2.ports = t1.ports) ∧
    (∃ t1 t2, KernelC.terminal_writestring data (terminal_setcolor attr t) = some t1 ∧
      KernelC.terminal_writestring_color data attr t = some t2 ∧
      t2.terminal_color = t.terminal_color ∧
      t1.terminal_color = attr % 256 ∧
      t2.terminal_buffer = t1.terminal_buffer ∧
      t2.terminal_row = t1.terminal_row ∧
      t2.terminal_column = t1.terminal_column ∧
      t2.writes = t1.writes ∧ t2.ports = t1.ports) := by
  have old : t.terminal_color % 256 = t.terminal_color := Nat.mod_eq_of_lt hc
  obtain ⟨t1, w1, c1⟩ : ∃ t1, TerminalC.terminal_writestring data (terminal_setcolor attr t) =
      some t1 ∧ t1.terminal_color = (terminal_setcolor attr t).terminal_color :=
    ⟨_, writestring_eq TerminalC.terminal_putchar data h0 (terminal_setcolor attr t),
      terminal_fold_color _ _⟩
  obtain ⟨k1, w2, c2⟩ : ∃ k1, KernelC.terminal_writestring data (terminal_setcolor attr t) =
      some k1 ∧ k1.terminal_color = (terminal_setcolor attr t).terminal_color :=
    ⟨_, writestring_eq KernelC.terminal_putchar data h0 (terminal_setcolor attr t),
      kernel_fold_color _ _⟩
  constructor
  · refine ⟨t1, terminal_setcolor t.terminal_color t1, w1, ?_, old, c1, rfl, rfl, rfl, rfl, rfl⟩
    unfold TerminalC.terminal_writestring_color
    simp only []
    rw [w1]
    rfl
  · refine ⟨k1, terminal_setcolor t.terminal_color k1, w2, ?_, old, c2, rfl, rfl, rfl, rfl, rfl⟩
    unfold KernelC.terminal_writestring_color
    simp only []
    rw [w2]
    rfl

theorem scoped_color_change_witness :
    ∃ t1 t2, KernelC.terminal_writestring (cstr "ok\n") (terminal_setcolor 10 sampleMid) =
        some t1 ∧
      KernelC.terminal_writestring_color (cstr "ok\n") 10 sampleMid = some t2 ∧
      t2.terminal_color = sampleMid.terminal_color ∧
      t1.terminal_color = 10 % 256 ∧
      t2.terminal_buffer = t1.terminal_buffer ∧
      t2.terminal_row = t1.terminal_row ∧
      t2.terminal_column = t1.terminal_column ∧
      t2.writes = t1.writes ∧ t2.ports = t1.ports :=
  (scoped_color_change sampleMid (cstr "ok\n") 10 (by decide) (by decide)).2

end HailOS
